import Mathlib

/-!
# humidity_temp.c : HTS221 humidity / LPS25H temperature poller

A shallow embedding of `src/humidity_temp.c`.

* Bytes (`uint8_t`) are natural numbers below 256; `int`, `int16_t` and
  `uint16_t` values are integers, with the conversion to a 16-bit type made
  explicit (`toInt16`, `toUInt16`).
* `double` and `float` values are modelled by `Dbl`: a finite value is an exact
  rational number, and the three IEEE special values (`+inf`, `-inf`, `NaN`)
  are kept, so that a division by zero is visible.  The operations of `Dbl`
  are exact on finite values; the binary64 operations (`Dbl.add64`, ...) round
  the exact result to the nearest `double`, and the humidity path is given
  with them as well (`humidityOf64`), for the places where rounding decides.
* Text read from the thermal pseudo-file is a list of byte codes.
* The program as a whole is a transition system (`step`, `run`): one step for
  the start-up, then one step for each iteration of the polling loop, with the
  bus accesses recorded in a trace.
-/

namespace HumidityTemp

/-! ## Registers and constants (lines 26-50) -/

def CTRL_REG1 : Nat := 0x20
def CTRL_REG2 : Nat := 0x21
def HUMIDITY_OUT_L : Nat := 0x28
def HUMIDITY_OUT_H : Nat := 0x29
def H0_rH_x2 : Nat := 0x30
def H1_rH_x2 : Nat := 0x31
def H0_OUT_L : Nat := 0x36
def H0_OUT_H : Nat := 0x37
def H1_OUT_L : Nat := 0x3A
def H1_OUT_H : Nat := 0x3B
def TEMP_OUT_L : Nat := 0x2B
def TEMP_OUT_H : Nat := 0x2C

/-- The macro `temp_offset` (line 49), a `double` constant. -/
def temp_offset : ℚ := 85 / 2

/-- The macro `temp_scale` (line 50), an `int` constant. -/
def temp_scale : Int := 480

/-! ## Floating-point values -/

/-- A `double` (or `float`) value: a finite number, or one of the IEEE special values. -/
inductive Dbl where
  | fin (q : ℚ)
  | pinf
  | ninf
  | nan
  deriving DecidableEq

namespace Dbl

/-- Conversion of a C integer to `double`. -/
def ofInt (i : Int) : Dbl := fin (i : ℚ)

/-- Unary minus. -/
def neg : Dbl → Dbl
  | fin q => fin (-q)
  | pinf => ninf
  | ninf => pinf
  | nan => nan

/-- IEEE addition: exact on finite values, `inf + (-inf) = NaN`. -/
def add : Dbl → Dbl → Dbl
  | nan, _ => nan
  | _, nan => nan
  | fin a, fin b => fin (a + b)
  | fin _, pinf => pinf
  | fin _, ninf => ninf
  | pinf, fin _ => pinf
  | ninf, fin _ => ninf
  | pinf, pinf => pinf
  | ninf, ninf => ninf
  | pinf, ninf => nan
  | ninf, pinf => nan

/-- IEEE subtraction. -/
def sub (x y : Dbl) : Dbl := add x (neg y)

/-- An infinity with the sign of `q` when `q` is not zero, `NaN` when `q = 0`:
the result of `inf * q` and of `q / 0`. -/
def infTimes (q : ℚ) : Dbl :=
  if 0 < q then pinf else if q < 0 then ninf else nan

/-- IEEE multiplication: exact on finite values, `inf * 0 = NaN`. -/
def mul : Dbl → Dbl → Dbl
  | nan, _ => nan
  | _, nan => nan
  | fin a, fin b => fin (a * b)
  | fin a, pinf => infTimes a
  | fin a, ninf => infTimes (-a)
  | pinf, fin b => infTimes b
  | ninf, fin b => infTimes (-b)
  | pinf, pinf => pinf
  | ninf, ninf => pinf
  | pinf, ninf => ninf
  | ninf, pinf => ninf

/-- IEEE division: exact on finite values with a non-zero divisor; a non-zero
finite value divided by zero is an infinity, `0 / 0` and `inf / inf` are `NaN`.
The zero divisors of this program come from the conversion of the `int` 0 and
are positive zeros. -/
def div : Dbl → Dbl → Dbl
  | nan, _ => nan
  | _, nan => nan
  | fin a, fin b => if b = 0 then infTimes a else fin (a / b)
  | fin _, pinf => fin 0
  | fin _, ninf => fin 0
  | pinf, fin b => if 0 ≤ b then pinf else ninf
  | ninf, fin b => if 0 ≤ b then ninf else pinf
  | pinf, pinf => nan
  | ninf, ninf => nan
  | pinf, ninf => nan
  | ninf, pinf => nan

/-- The value is a finite number (neither an infinity nor `NaN`). -/
def isFinite : Dbl → Bool
  | fin _ => true
  | _ => false

end Dbl

/-! ## Integer conversions -/

/-- Conversion of an `int` to `uint8_t`: reduction modulo 256. -/
def toUInt8 (x : Int) : Nat := (x % 256).toNat

/-- Conversion of an `int` to `uint16_t`: reduction modulo 65536. -/
def toUInt16 (x : Int) : Int := x % 65536

/-- Conversion of an `int` to `int16_t`: the value modulo 65536 taken in
`[-32768, 32767]` (two's complement), as gcc defines the conversion. -/
def toInt16 (x : Int) : Int := (x + 32768) % 65536 - 32768

/-- The `int` expression `MSB << 8 | LSB` of lines 90, 91, 108 and 116, on two
bytes promoted to `int`. -/
def shiftOr (msb lsb : Nat) : Int := (((msb <<< 8) ||| lsb : Nat) : Int)

/-- The signed word `int16_t x = MSB << 8 | LSB` (lines 90, 91, 108). -/
def assembleInt16 (msb lsb : Nat) : Int := toInt16 (shiftOr msb lsb)

/-- The unsigned word `uint16_t temp_OUT = MSB << 8 | LSB` (line 116). -/
def assembleUInt16 (msb lsb : Nat) : Int := toUInt16 (shiftOr msb lsb)

/-! ## Humidity: calibration and interpolation (lines 78-111) -/

/-- The calibration value `h_rH = h_rH_x2 / 2.0` (lines 94, 95). -/
def h_rH (x2 : Nat) : Dbl := Dbl.div (Dbl.ofInt x2) (Dbl.fin 2)

/-- The slope `gradient = (h1_rH - h0_rH) / (h1_OUT - h0_OUT)` (line 98); the
divisor is an `int` difference converted to `double`. -/
def gradient (h0_rH h1_rH : Dbl) (h0_OUT h1_OUT : Int) : Dbl :=
  Dbl.div (Dbl.sub h1_rH h0_rH) (Dbl.ofInt (h1_OUT - h0_OUT))

/-- The intercept `y_intercept = h1_rH - (gradient * h1_OUT)` (line 101). -/
def y_intercept (h1_rH grad : Dbl) (h1_OUT : Int) : Dbl :=
  Dbl.sub h1_rH (Dbl.mul grad (Dbl.ofInt h1_OUT))

/-- The humidity `H_rH = (gradient * humidity) + y_intercept` (line 111). -/
def H_rH (grad intercept : Dbl) (humidity : Int) : Dbl :=
  Dbl.add (Dbl.mul grad (Dbl.ofInt humidity)) intercept

/-- The six calibration bytes read at lines 80-87. -/
structure CalibBytes where
  h0_OUT_LSB : Nat
  h0_OUT_MSB : Nat
  h1_OUT_LSB : Nat
  h1_OUT_MSB : Nat
  h0_rH_x2 : Nat
  h1_rH_x2 : Nat
  deriving DecidableEq

/-- The raw output `h0_OUT` of the first calibration point (line 90). -/
def CalibBytes.h0_OUT (c : CalibBytes) : Int := assembleInt16 c.h0_OUT_MSB c.h0_OUT_LSB

/-- The raw output `h1_OUT` of the second calibration point (line 91). -/
def CalibBytes.h1_OUT (c : CalibBytes) : Int := assembleInt16 c.h1_OUT_MSB c.h1_OUT_LSB

/-- The `gradient` of line 98 computed from the calibration bytes (lines 90-98). -/
def CalibBytes.gradient (c : CalibBytes) : Dbl :=
  HumidityTemp.gradient (h_rH c.h0_rH_x2) (h_rH c.h1_rH_x2) c.h0_OUT c.h1_OUT

/-- The `y_intercept` of line 101 computed from the calibration bytes (lines 90-101). -/
def CalibBytes.y_intercept (c : CalibBytes) : Dbl :=
  HumidityTemp.y_intercept (h_rH c.h1_rH_x2) c.gradient c.h1_OUT

/-- The humidity of line 111 for the calibration bytes and the two live humidity
bytes (lines 90-111). -/
def humidityOf (c : CalibBytes) (humidity_MSB humidity_LSB : Nat) : Dbl :=
  H_rH c.gradient c.y_intercept (assembleInt16 humidity_MSB humidity_LSB)

/-! ## Temperature (lines 113-124) -/

/-- The loop of `bin2dec` (lines 142-147) with the state `tempNum`, `decimal`,
`base`; each unit of fuel is one test of the loop condition.  `/` and `%` on
`int` truncate toward zero. -/
def bin2decLoop : Nat → Int → Int → Int → Option Int
  | 0, _, _, _ => none
  | fuel + 1, tempNum, decimal, base =>
    if tempNum = 0 then some decimal
    else bin2decLoop fuel (tempNum.tdiv 10) (decimal + tempNum.tmod 10 * base) (base * 2)

/-- The function `bin2dec` (lines 137-149).  The fuel given suffices for every
`n`, since each iteration makes `tempNum` smaller in absolute value.  For a
32-bit `n` no intermediate value leaves the range of `int` (at most ten
iterations, `base` at most 1024). -/
def bin2dec (n : Int) : Option Int := bin2decLoop (n.natAbs + 1) n 0 1

/-- The package temperature `temp = temp_offset + (bin2dec(temp_OUT) / temp_scale)`
(line 119): the quotient of two `int`s is the truncating integer division, whose
result is then converted to `double`. -/
def packageTemp (temp_OUT : Int) : Option Dbl :=
  (bin2dec temp_OUT).map fun r => Dbl.add (Dbl.fin temp_offset) (Dbl.ofInt (r.tdiv temp_scale))

/-- The package temperature for the two temperature bytes (lines 114-119). -/
def tempOf (temp_OUT_MSB temp_OUT_LSB : Nat) : Option Dbl :=
  packageTemp (assembleUInt16 temp_OUT_MSB temp_OUT_LSB)

/-- The corrected temperature `temp - ((getcputemp() - temp)/5.466) - 6` (line 124). -/
def accurateTemp (temp cpu : Dbl) : Dbl :=
  Dbl.sub (Dbl.sub temp (Dbl.div (Dbl.sub cpu temp) (Dbl.fin (5466 / 1000)))) (Dbl.ofInt 6)

/-! ## Host temperature: `getcputemp` (lines 153-184) -/

/-- The C library test `isdigit` on a byte code. -/
def isdigit (c : Nat) : Bool := decide (48 ≤ c) && decide (c ≤ 57)

/-- The C library test `isspace` on a byte code. -/
def isspace (c : Nat) : Bool := decide (c = 32) || (decide (9 ≤ c) && decide (c ≤ 13))

/-- The bytes `fgets` stores for a buffer of `n + 1` bytes: at most `n` bytes of
the file, up to and including the first newline. -/
def fgetsRead : Nat → List Nat → List Nat
  | 0, _ => []
  | _, [] => []
  | n + 1, c :: cs => if c = 10 then [c] else c :: fgetsRead n cs

/-- The C string held by a buffer: the bytes before the first NUL. -/
def cstr (buf : List Nat) : List Nat := buf.takeWhile (fun c => c ≠ 0)

/-- The call `fgets(line, size, f)` (line 163) on a file with the given
remaining content, as the string in `line` afterwards: at end of file nothing
is stored and `line` is unchanged. -/
def fgets (size : Nat) (line content : List Nat) : List Nat :=
  if content = [] then line else cstr (fgetsRead (size - 1) content)

/-- The digit loop of `atoi`: the value of the leading decimal digits. -/
def atoiDigits : Int → List Nat → Int
  | acc, [] => acc
  | acc, c :: cs => if isdigit c then atoiDigits (acc * 10 + ((c : Int) - 48)) cs else acc

/-- The C library function `atoi`: leading white space, an optional sign, then
decimal digits.  The result is `none` when the value does not fit in a 32-bit
`int`, where C leaves the behaviour undefined. -/
def atoi (s : List Nat) : Option Int :=
  let s1 := s.dropWhile isspace
  let negative := s1.head? = some 45
  let s2 := if s1.head? = some 45 ∨ s1.head? = some 43 then s1.tail else s1
  let v := atoiDigits 0 s2
  let r := if negative then -v else v
  if -2147483648 ≤ r ∧ r ≤ 2147483647 then some r else none

/-- The text in `line` when `atoi` is reached (lines 156-180 of `getcputemp`).
The argument is the thermal pseudo-file: `none` when `fopen` fails, otherwise
its content.  `line` starts as `"0"`; `fgets` may overwrite it; it is cut at
the first newline, or reset to `"0"` when it holds no newline; it is reset to
`"0"` when one of its characters is not a digit. -/
def cpuLine (f : Option (List Nat)) : List Nat :=
  let line0 : List Nat := [48]
  let line1 := match f with
    | none => line0
    | some content => fgets 256 line0 content
  let line2 := if 10 ∈ line1 then line1.takeWhile (fun c => c ≠ 10) else [48]
  if line2.all isdigit then line2 else [48]

/-- The function `getcputemp` (lines 153-184): `((float)atoi(line))/1000`.  The
result is `none` only where `atoi` is undefined. -/
def getcputemp (f : Option (List Nat)) : Option Dbl :=
  (atoi (cpuLine f)).map fun n => Dbl.div (Dbl.ofInt n) (Dbl.ofInt 1000)

/-! ## One iteration of the polling loop (lines 76-133) -/

/-- The values printed by one iteration. -/
structure Report where
  H_rH : Dbl
  accurateTemp : Dbl
  deriving DecidableEq

/-- The registers read by one iteration of the `while` loop, in program order
(lines 80-87, 104-105, 114-115). -/
def loopBodyReads : List Nat :=
  [H0_OUT_L, H0_OUT_H, H1_OUT_L, H1_OUT_H, H0_rH_x2, H1_rH_x2,
   HUMIDITY_OUT_L, HUMIDITY_OUT_H, TEMP_OUT_L, TEMP_OUT_H]

/-- An access to the sensor over the I2C bus. -/
inductive BusEvent where
  | write (reg value : Nat)
  | read (reg : Nat)
  deriving DecidableEq

/-- The bus accesses of the clean start before the loop (lines 72-73). -/
def startupEvents : List BusEvent :=
  [BusEvent.write CTRL_REG1 0x00, BusEvent.write CTRL_REG1 0x84]

/-- The bus accesses of one iteration of the `while` loop. -/
def loopBodyEvents : List BusEvent := loopBodyReads.map BusEvent.read

/-- The calibration bytes an iteration reads (lines 80-87); `read` is
`i2c_smbus_read_byte_data` on the open bus, whose `int` result is stored in a
`uint8_t`. -/
def readCalib (read : Nat → Int) : CalibBytes where
  h0_OUT_LSB := toUInt8 (read H0_OUT_L)
  h0_OUT_MSB := toUInt8 (read H0_OUT_H)
  h1_OUT_LSB := toUInt8 (read H1_OUT_L)
  h1_OUT_MSB := toUInt8 (read H1_OUT_H)
  h0_rH_x2 := toUInt8 (read H0_rH_x2)
  h1_rH_x2 := toUInt8 (read H1_rH_x2)

/-- The body of the `while` loop (lines 78-129): the calibration registers, the
humidity word and the temperature word are read, and the two reported values
computed. -/
def loopBody (read : Nat → Int) (thermal : Option (List Nat)) : Option Report :=
  let c := readCalib read
  let humidity_LSB := toUInt8 (read HUMIDITY_OUT_L)
  let humidity_MSB := toUInt8 (read HUMIDITY_OUT_H)
  let H := humidityOf c humidity_MSB humidity_LSB
  let temp_OUT_LSB := toUInt8 (read TEMP_OUT_L)
  let temp_OUT_MSB := toUInt8 (read TEMP_OUT_H)
  match tempOf temp_OUT_MSB temp_OUT_LSB, getcputemp thermal with
  | some temp, some cpu => some ⟨H, accurateTemp temp cpu⟩
  | _, _ => none

/-- The two parts of a 16-bit word: its low 8 bits and the high 8 bits of its
16-bit two's-complement pattern.  This is the re-splitting the round-trip
property of the specification speaks of; the program itself never splits a word. -/
def splitWord (w : Int) : Nat × Nat := ((w % 256).toNat, ((w % 65536) / 256 % 256).toNat)

/-! ## The program as a transition system (lines 55-134) -/

/-- One call `i2c_smbus_read_byte_data(i2c_file, reg)` whose result is stored
in a `uint8_t`: the byte, and the trace of bus accesses with this read added. -/
def readByte (read : Nat → Int) (reg : Nat) (trace : List BusEvent) : Nat × List BusEvent :=
  (toUInt8 (read reg), trace ++ [BusEvent.read reg])

/-- One call `i2c_smbus_write_byte_data(i2c_file, reg, value)`: the trace of
bus accesses with this write added. -/
def writeByte (reg value : Nat) (trace : List BusEvent) : List BusEvent :=
  trace ++ [BusEvent.write reg value]

/-- What one iteration of the loop leaves behind: the bus accesses so far, the
values of the local variables `gradient` and `y_intercept`, and what is printed. -/
structure LoopResult where
  trace : List BusEvent
  gradient : Dbl
  y_intercept : Dbl
  report : Option Report

/-- The body of the `while` loop (lines 78-129), statement by statement, with
every bus access recorded in the trace. -/
def loopBodyTraced (read : Nat → Int) (thermal : Option (List Nat))
    (trace : List BusEvent) : LoopResult :=
  let r1 := readByte read H0_OUT_L trace
  let h0_OUT_LSB := r1.1
  let r2 := readByte read H0_OUT_H r1.2
  let h0_OUT_MSB := r2.1
  let r3 := readByte read H1_OUT_L r2.2
  let h1_OUT_LSB := r3.1
  let r4 := readByte read H1_OUT_H r3.2
  let h1_OUT_MSB := r4.1
  let r5 := readByte read H0_rH_x2 r4.2
  let h0_rH_x2 := r5.1
  let r6 := readByte read H1_rH_x2 r5.2
  let h1_rH_x2 := r6.1
  let h0_OUT := assembleInt16 h0_OUT_MSB h0_OUT_LSB
  let h1_OUT := assembleInt16 h1_OUT_MSB h1_OUT_LSB
  let h0_rH := h_rH h0_rH_x2
  let h1_rH := h_rH h1_rH_x2
  let grad := gradient h0_rH h1_rH h0_OUT h1_OUT
  let intercept := y_intercept h1_rH grad h1_OUT
  let r7 := readByte read HUMIDITY_OUT_L r6.2
  let humidity_LSB := r7.1
  let r8 := readByte read HUMIDITY_OUT_H r7.2
  let humidity_MSB := r8.1
  let humidity := assembleInt16 humidity_MSB humidity_LSB
  let H := H_rH grad intercept humidity
  let r9 := readByte read TEMP_OUT_L r8.2
  let temp_OUT_LSB := r9.1
  let r10 := readByte read TEMP_OUT_H r9.2
  let temp_OUT_MSB := r10.1
  let temp_OUT := assembleUInt16 temp_OUT_MSB temp_OUT_LSB
  let report := match packageTemp temp_OUT, getcputemp thermal with
    | some temp, some cpu => some (Report.mk H (accurateTemp temp cpu))
    | _, _ => none
  LoopResult.mk r10.2 grad intercept report

/-- What surrounds the program: whether `open` and `ioctl` succeed, and for
each iteration of the loop (counted from 0) what a read of each register
returns and what the thermal pseudo-file holds. -/
structure World where
  openOk : Bool
  ioctlOk : Bool
  sensor : Nat → Nat → Int
  thermal : Nat → Option (List Nat)

/-- Where the control of `main` is: before the loop, in the loop, or after `exit(1)`. -/
inductive Phase where
  | startup
  | polling
  | exited
  deriving DecidableEq

/-- The state of the program between two steps. -/
structure ProgState where
  phase : Phase
  iteration : Nat
  trace : List BusEvent
  mapping : Option (Dbl × Dbl)
  reports : List (Option Report)

/-- The state when `main` is entered: no bus access yet, no `gradient` and
`y_intercept` yet, nothing printed. -/
def initState : ProgState :=
  ProgState.mk Phase.startup 0 [] none []

/-- One step of the program: the start-up (lines 59-73), which leaves with
`exit(1)` when `open` or `ioctl` fails and otherwise powers the device off and
on, or one iteration of the `while (1)` loop (lines 76-133). -/
def step (w : World) (s : ProgState) : ProgState :=
  match s.phase with
  | Phase.startup =>
    if w.openOk = false then ProgState.mk Phase.exited s.iteration s.trace s.mapping s.reports
    else if w.ioctlOk = false then
      ProgState.mk Phase.exited s.iteration s.trace s.mapping s.reports
    else
      ProgState.mk Phase.polling s.iteration
        (writeByte CTRL_REG1 0x84 (writeByte CTRL_REG1 0x00 s.trace)) s.mapping s.reports
  | Phase.polling =>
    let r := loopBodyTraced (w.sensor s.iteration) (w.thermal s.iteration) s.trace
    ProgState.mk Phase.polling (s.iteration + 1) r.trace (some (r.gradient, r.y_intercept))
      (s.reports ++ [r.report])
  | Phase.exited => s

/-- The step relation of the program in the world `w`. -/
def Step (w : World) (s s2 : ProgState) : Prop := s2 = step w s

/-- The state after `n` steps from the entry of `main`. -/
def run (w : World) : Nat → ProgState
  | 0 => initState
  | n + 1 => step w (run w n)

/-- The six calibration registers. -/
def calibrationRegisters : List Nat :=
  [H0_OUT_L, H0_OUT_H, H1_OUT_L, H1_OUT_H, H0_rH_x2, H1_rH_x2]

/-! ## Rounding to binary64, and the humidity path with rounding -/

/-- The power `2 ^ e` for an integer exponent. -/
def pow2 (e : Int) : ℚ :=
  if 0 ≤ e then ((2 ^ e.toNat : Nat) : ℚ) else 1 / ((2 ^ (-e).toNat : Nat) : ℚ)

/-- The number of halvings that bring `n` below 2, at most `fuel` of them. -/
def halvings : Nat → Nat → Nat
  | 0, _ => 0
  | fuel + 1, n => if 2 ≤ n then halvings fuel (n / 2) + 1 else 0

/-- The binary logarithm of a positive `n`, rounded down: the `k` with
`2 ^ k ≤ n < 2 ^ (k + 1)`. -/
def floorLog2 (n : Nat) : Nat := halvings n n

/-- The binary exponent of the positive fraction `a / b`: the `e` with
`2 ^ e ≤ a / b < 2 ^ (e + 1)`. -/
def binaryExponent (a b : Nat) : Int :=
  let e0 : Int := (floorLog2 a : Int) - (floorLog2 b : Int)
  if pow2 e0 ≤ (a : ℚ) / (b : ℚ) then e0 else e0 - 1

/-- The integer nearest to `x`, the even one of the two when `x` is half-way. -/
def roundHalfEven (x : ℚ) : Int :=
  let n := Rat.floor x
  let r := x - (n : ℚ)
  if r < 1 / 2 then n else if 1 / 2 < r then n + 1 else if n % 2 = 0 then n else n + 1

/-- The `double` nearest to the number `q` (round to nearest, ties to even): a
multiple of `2 ^ (e - 52)` for the binary exponent `e` of `q`, of `2 ^ (-1074)`
in the subnormal range, and an infinity from `2 ^ 1024` on. -/
def Dbl.round64 (q : ℚ) : Dbl :=
  if q = 0 then Dbl.fin 0
  else
    let e := binaryExponent q.num.natAbs q.den
    let quantum := pow2 (max e (-1022) - 52)
    let r := (roundHalfEven (q / quantum) : ℚ) * quantum
    if pow2 1024 ≤ r then Dbl.pinf
    else if r ≤ -pow2 1024 then Dbl.ninf
    else Dbl.fin r

/-- Rounding of an exact result to binary64; the special values stay. -/
def Dbl.rnd : Dbl → Dbl
  | Dbl.fin q => Dbl.round64 q
  | x => x

/-- Conversion of a C integer to `double`, in binary64. -/
def Dbl.ofInt64 (i : Int) : Dbl := Dbl.round64 (i : ℚ)

/-- The binary64 sum: the exact sum, rounded. -/
def Dbl.add64 (x y : Dbl) : Dbl := Dbl.rnd (Dbl.add x y)

/-- The binary64 difference: the exact difference, rounded. -/
def Dbl.sub64 (x y : Dbl) : Dbl := Dbl.rnd (Dbl.sub x y)

/-- The binary64 product: the exact product, rounded. -/
def Dbl.mul64 (x y : Dbl) : Dbl := Dbl.rnd (Dbl.mul x y)

/-- The binary64 quotient: the exact quotient, rounded. -/
def Dbl.div64 (x y : Dbl) : Dbl := Dbl.rnd (Dbl.div x y)

/-- The calibration value of lines 94, 95 in binary64. -/
def h_rH64 (x2 : Nat) : Dbl := Dbl.div64 (Dbl.ofInt64 x2) (Dbl.fin 2)

/-- The slope of line 98 in binary64, each operation rounded on its own. -/
def gradient64 (h0_rH h1_rH : Dbl) (h0_OUT h1_OUT : Int) : Dbl :=
  Dbl.div64 (Dbl.sub64 h1_rH h0_rH) (Dbl.ofInt64 (h1_OUT - h0_OUT))

/-- The intercept of line 101 in binary64, each operation rounded on its own. -/
def y_intercept64 (h1_rH grad : Dbl) (h1_OUT : Int) : Dbl :=
  Dbl.sub64 h1_rH (Dbl.mul64 grad (Dbl.ofInt64 h1_OUT))

/-- The humidity of line 111 in binary64, each operation rounded on its own. -/
def H_rH64 (grad intercept : Dbl) (humidity : Int) : Dbl :=
  Dbl.add64 (Dbl.mul64 grad (Dbl.ofInt64 humidity)) intercept

/-- The `gradient` of line 98 in binary64, from the calibration bytes. -/
def CalibBytes.gradient64 (c : CalibBytes) : Dbl :=
  HumidityTemp.gradient64 (h_rH64 c.h0_rH_x2) (h_rH64 c.h1_rH_x2) c.h0_OUT c.h1_OUT

/-- The `y_intercept` of line 101 in binary64, from the calibration bytes. -/
def CalibBytes.y_intercept64 (c : CalibBytes) : Dbl :=
  HumidityTemp.y_intercept64 (h_rH64 c.h1_rH_x2) c.gradient64 c.h1_OUT

/-- The humidity of line 111 in binary64 for the calibration bytes and the two
live humidity bytes (lines 90-111). -/
def humidityOf64 (c : CalibBytes) (humidity_MSB humidity_LSB : Nat) : Dbl :=
  H_rH64 c.gradient64 c.y_intercept64 (assembleInt16 humidity_MSB humidity_LSB)

/-! ## Example inputs -/

/-- The sensor of the examples: calibration points (raw 0, 20 %) and
(raw 1000, 70 %), the live humidity word 2000, the temperature word 0; every
other register reads 0. -/
def exampleRead (reg : Nat) : Int :=
  if reg = H1_OUT_L then 0xE8
  else if reg = H1_OUT_H then 0x03
  else if reg = H0_rH_x2 then 40
  else if reg = H1_rH_x2 then 140
  else if reg = HUMIDITY_OUT_L then 0xD0
  else if reg = HUMIDITY_OUT_H then 0x07
  else 0

/-- A world for the examples: the bus opens, the example sensor answers in
every iteration and the host file is `45678`. -/
def exampleWorld : World where
  openOk := true
  ioctlOk := true
  sensor := fun _ => exampleRead
  thermal := fun _ => some [52, 53, 54, 55, 56, 10]

/-- A world whose sensor changes: as `exampleWorld`, but from the second
iteration on the register `H1_rH_x2` reads 200 instead of 140. -/
def driftingWorld : World where
  openOk := true
  ioctlOk := true
  sensor := fun i reg => if 1 ≤ i ∧ reg = H1_rH_x2 then 200 else exampleRead reg
  thermal := fun _ => some [52, 53, 54, 55, 56, 10]

/-! # Theorems -/

/-! ## Word assembly (claims C4, C5) -/

/-- On a low byte, `MSB << 8 | LSB` is `256 * MSB + LSB`. -/
theorem shiftOr_eq (msb lsb : Nat) (h : lsb < 256) :
    shiftOr msb lsb = 256 * (msb : Int) + (lsb : Int) := by
  unfold shiftOr
  have h2 : lsb < 2 ^ 8 := by simpa using h
  have key := Nat.mul_add_lt_is_or h2 msb
  rw [Nat.shiftLeft_eq, Nat.mul_comm, ← key]
  push_cast
  norm_num

/-- Value of the unsigned word. -/
theorem assembleUInt16_eq (msb lsb : Nat) (hm : msb < 256) (hl : lsb < 256) :
    assembleUInt16 msb lsb = 256 * (msb : Int) + (lsb : Int) := by
  unfold assembleUInt16 toUInt16
  rw [shiftOr_eq msb lsb hl]
  omega

/-- Value of the signed word. -/
theorem assembleInt16_eq (msb lsb : Nat) (hm : msb < 256) (hl : lsb < 256) :
    assembleInt16 msb lsb =
      if msb < 128 then 256 * (msb : Int) + (lsb : Int)
      else 256 * (msb : Int) + (lsb : Int) - 65536 := by
  unfold assembleInt16 toInt16
  rw [shiftOr_eq msb lsb hl]
  split <;> omega

/-- Claim C4: for bytes `lo`, `hi` in `[0, 255]` the unsigned word is
`256 * hi + lo`, in `[0, 65535]`; the signed word is `256 * hi + lo` when
`hi < 128` and `256 * hi + lo - 65536` when `hi >= 128`, so it is in
`[-32768, 32767]` and negative exactly when bit 15 is set. -/
theorem word_assembly_value (lo hi : Nat) (hlo : lo < 256) (hhi : hi < 256) :
    (assembleUInt16 hi lo = 256 * (hi : Int) + (lo : Int) ∧
      0 ≤ assembleUInt16 hi lo ∧ assembleUInt16 hi lo ≤ 65535) ∧
    (hi < 128 → assembleInt16 hi lo = 256 * (hi : Int) + (lo : Int)) ∧
    (128 ≤ hi → assembleInt16 hi lo = 256 * (hi : Int) + (lo : Int) - 65536) ∧
    (-32768 ≤ assembleInt16 hi lo ∧ assembleInt16 hi lo ≤ 32767) ∧
    (assembleInt16 hi lo < 0 ↔ 128 ≤ hi) := by
  have hu := assembleUInt16_eq hi lo hhi hlo
  have hs := assembleInt16_eq hi lo hhi hlo
  refine ⟨⟨hu, by omega, by omega⟩, ?_, ?_, ?_, ?_⟩
  · intro h; rw [hs, if_pos h]
  · intro h; rw [hs, if_neg (by omega)]
  · split at hs <;> omega
  · split at hs <;> omega

/-- Claim C4 at `lo = 0x18`, `hi = 0xFC` (the signed word -1000, the unsigned
word 64536). -/
theorem word_assembly_value_witness :
    ((0x18 : Nat) < 256 ∧ (0xFC : Nat) < 256) ∧
    (assembleUInt16 0xFC 0x18 = 256 * ((0xFC : Nat) : Int) + ((0x18 : Nat) : Int) ∧
      0 ≤ assembleUInt16 0xFC 0x18 ∧ assembleUInt16 0xFC 0x18 ≤ 65535) ∧
    (0xFC < 128 → assembleInt16 0xFC 0x18 = 256 * ((0xFC : Nat) : Int) + ((0x18 : Nat) : Int)) ∧
    (128 ≤ 0xFC →
      assembleInt16 0xFC 0x18 = 256 * ((0xFC : Nat) : Int) + ((0x18 : Nat) : Int) - 65536) ∧
    (-32768 ≤ assembleInt16 0xFC 0x18 ∧ assembleInt16 0xFC 0x18 ≤ 32767) ∧
    (assembleInt16 0xFC 0x18 < 0 ↔ 128 ≤ 0xFC) :=
  ⟨⟨by decide, by decide⟩, word_assembly_value 0x18 0xFC (by decide) (by decide)⟩

/-- Claim C5: for bytes `lo`, `hi` in `[0, 255]`, splitting the signed word or
the unsigned word again into its low 8 bits and the high 8 bits of its 16-bit
pattern gives back `(lo, hi)`; hence both assemblies are injective on pairs of
bytes. -/
theorem word_assembly_round_trip (lo hi : Nat) (hlo : lo < 256) (hhi : hi < 256) :
    splitWord (assembleInt16 hi lo) = (lo, hi) ∧
    splitWord (assembleUInt16 hi lo) = (lo, hi) ∧
    (∀ lo2 hi2 : Nat, lo2 < 256 → hi2 < 256 →
      assembleInt16 hi lo = assembleInt16 hi2 lo2 → lo = lo2 ∧ hi = hi2) ∧
    (∀ lo2 hi2 : Nat, lo2 < 256 → hi2 < 256 →
      assembleUInt16 hi lo = assembleUInt16 hi2 lo2 → lo = lo2 ∧ hi = hi2) := by
  have hu := assembleUInt16_eq hi lo hhi hlo
  have hs := assembleInt16_eq hi lo hhi hlo
  refine ⟨?_, ?_, ?_, ?_⟩
  · unfold splitWord
    refine Prod.ext ?_ ?_ <;> simp only <;> split at hs <;> omega
  · unfold splitWord
    refine Prod.ext ?_ ?_ <;> simp only <;> omega
  · intro lo2 hi2 h1 h2 he
    have hs2 := assembleInt16_eq hi2 lo2 h2 h1
    split at hs <;> split at hs2 <;> omega
  · intro lo2 hi2 h1 h2 he
    have hu2 := assembleUInt16_eq hi2 lo2 h2 h1
    omega

/-- Claim C5 at `lo = 0x18`, `hi = 0xFC`, a word with bit 15 set. -/
theorem word_assembly_round_trip_witness :
    ((0x18 : Nat) < 256 ∧ (0xFC : Nat) < 256) ∧
    splitWord (assembleInt16 0xFC 0x18) = (0x18, 0xFC) ∧
    splitWord (assembleUInt16 0xFC 0x18) = (0x18, 0xFC) ∧
    (∀ lo2 hi2 : Nat, lo2 < 256 → hi2 < 256 →
      assembleInt16 0xFC 0x18 = assembleInt16 hi2 lo2 → 0x18 = lo2 ∧ 0xFC = hi2) ∧
    (∀ lo2 hi2 : Nat, lo2 < 256 → hi2 < 256 →
      assembleUInt16 0xFC 0x18 = assembleUInt16 hi2 lo2 → 0x18 = lo2 ∧ 0xFC = hi2) :=
  ⟨⟨by decide, by decide⟩, word_assembly_round_trip 0x18 0xFC (by decide) (by decide)⟩

/-! ## Humidity (claims C1, C2, C6, C10) -/

/-- The calibration value is half the calibration byte. -/
theorem h_rH_eq (x2 : Nat) : h_rH x2 = Dbl.fin ((x2 : ℚ) / 2) := by
  simp [h_rH, Dbl.div, Dbl.ofInt]

/-- Two different integers have a non-zero difference as rationals. -/
theorem cast_sub_ne_zero (r0 r1 : Int) (hne : r0 ≠ r1) : (r1 : ℚ) - (r0 : ℚ) ≠ 0 := by
  intro h
  apply hne
  have : (r1 : ℚ) = (r0 : ℚ) := by linarith
  exact_mod_cast this.symm

/-- With different raw outputs the slope of line 98 is the finite quotient. -/
theorem gradient_fin (b0 b1 : Nat) (r0 r1 : Int) (hne : r0 ≠ r1) :
    gradient (h_rH b0) (h_rH b1) r0 r1 =
      Dbl.fin ((((b1 : ℚ) / 2) - ((b0 : ℚ) / 2)) / ((r1 : ℚ) - (r0 : ℚ))) := by
  have hd : ((r1 - r0 : Int) : ℚ) ≠ 0 := by
    have : r1 - r0 ≠ 0 := by omega
    exact_mod_cast this
  simp only [gradient, h_rH_eq, Dbl.sub, Dbl.neg, Dbl.add, Dbl.div, Dbl.ofInt, if_neg hd]
  push_cast
  ring_nf

/-- With different raw outputs the intercept of line 101 is finite. -/
theorem y_intercept_fin (b0 b1 : Nat) (r0 r1 : Int) (hne : r0 ≠ r1) :
    y_intercept (h_rH b1) (gradient (h_rH b0) (h_rH b1) r0 r1) r1 =
      Dbl.fin ((b1 : ℚ) / 2 -
        ((((b1 : ℚ) / 2) - ((b0 : ℚ) / 2)) / ((r1 : ℚ) - (r0 : ℚ))) * (r1 : ℚ)) := by
  rw [gradient_fin b0 b1 r0 r1 hne, h_rH_eq]
  simp only [y_intercept, Dbl.sub, Dbl.neg, Dbl.add, Dbl.mul, Dbl.ofInt]
  ring_nf

/-- The humidity of line 111 for a finite slope and intercept. -/
theorem H_rH_fin (g i : ℚ) (h : Int) :
    H_rH (Dbl.fin g) (Dbl.fin i) h = Dbl.fin (g * (h : ℚ) + i) := rfl

/-- Claim C1: when the two assembled raw outputs differ, the slope and intercept
computed at lines 98 and 101 are the finite numbers
`(v1 - v0) / (r1 - r0)` and `v1 - gradient * r1`, and the line through them
passes through both calibration points: `gradient * r0 + intercept = v0` and
`gradient * r1 + intercept = v1`, also as the humidity line 111 computes for a
live word equal to either raw output. -/
theorem linear_interpolation (c : CalibBytes) (hne : c.h0_OUT ≠ c.h1_OUT) :
    ∃ g i : ℚ,
      c.gradient = Dbl.fin g ∧ c.y_intercept = Dbl.fin i ∧
      g = ((c.h1_rH_x2 : ℚ) / 2 - (c.h0_rH_x2 : ℚ) / 2) / ((c.h1_OUT : ℚ) - (c.h0_OUT : ℚ)) ∧
      i = (c.h1_rH_x2 : ℚ) / 2 - g * (c.h1_OUT : ℚ) ∧
      g * (c.h0_OUT : ℚ) + i = (c.h0_rH_x2 : ℚ) / 2 ∧
      g * (c.h1_OUT : ℚ) + i = (c.h1_rH_x2 : ℚ) / 2 ∧
      humidityOf c c.h0_OUT_MSB c.h0_OUT_LSB = Dbl.fin ((c.h0_rH_x2 : ℚ) / 2) ∧
      humidityOf c c.h1_OUT_MSB c.h1_OUT_LSB = Dbl.fin ((c.h1_rH_x2 : ℚ) / 2) := by
  have hd := cast_sub_ne_zero c.h0_OUT c.h1_OUT hne
  have hg : c.gradient = _ := gradient_fin c.h0_rH_x2 c.h1_rH_x2 c.h0_OUT c.h1_OUT hne
  have hi : c.y_intercept = _ := y_intercept_fin c.h0_rH_x2 c.h1_rH_x2 c.h0_OUT c.h1_OUT hne
  have e0 : ((c.h1_rH_x2 : ℚ) / 2 - (c.h0_rH_x2 : ℚ) / 2) / ((c.h1_OUT : ℚ) - (c.h0_OUT : ℚ)) *
      (c.h0_OUT : ℚ) + ((c.h1_rH_x2 : ℚ) / 2 -
        ((c.h1_rH_x2 : ℚ) / 2 - (c.h0_rH_x2 : ℚ) / 2) / ((c.h1_OUT : ℚ) - (c.h0_OUT : ℚ)) *
          (c.h1_OUT : ℚ)) = (c.h0_rH_x2 : ℚ) / 2 := by
    field_simp
    ring
  have e1 : ((c.h1_rH_x2 : ℚ) / 2 - (c.h0_rH_x2 : ℚ) / 2) / ((c.h1_OUT : ℚ) - (c.h0_OUT : ℚ)) *
      (c.h1_OUT : ℚ) + ((c.h1_rH_x2 : ℚ) / 2 -
        ((c.h1_rH_x2 : ℚ) / 2 - (c.h0_rH_x2 : ℚ) / 2) / ((c.h1_OUT : ℚ) - (c.h0_OUT : ℚ)) *
          (c.h1_OUT : ℚ)) = (c.h1_rH_x2 : ℚ) / 2 := by
    field_simp
    ring
  refine ⟨_, _, hg, hi, rfl, rfl, e0, e1, ?_, ?_⟩
  · have : humidityOf c c.h0_OUT_MSB c.h0_OUT_LSB = H_rH c.gradient c.y_intercept c.h0_OUT := rfl
    rw [this, hg, hi, H_rH_fin, e0]
  · have : humidityOf c c.h1_OUT_MSB c.h1_OUT_LSB = H_rH c.gradient c.y_intercept c.h1_OUT := rfl
    rw [this, hg, hi, H_rH_fin, e1]

/-- Claim C1 at the calibration points (raw 0, 20 %) and (raw 1000, 70 %). -/
theorem linear_interpolation_witness :
    (⟨0x00, 0x00, 0xE8, 0x03, 40, 140⟩ : CalibBytes).h0_OUT ≠
      (⟨0x00, 0x00, 0xE8, 0x03, 40, 140⟩ : CalibBytes).h1_OUT ∧
    ∃ g i : ℚ,
      (⟨0x00, 0x00, 0xE8, 0x03, 40, 140⟩ : CalibBytes).gradient = Dbl.fin g ∧
      (⟨0x00, 0x00, 0xE8, 0x03, 40, 140⟩ : CalibBytes).y_intercept = Dbl.fin i ∧
      g = (((140 : Nat) : ℚ) / 2 - ((40 : Nat) : ℚ) / 2) /
        (((⟨0x00, 0x00, 0xE8, 0x03, 40, 140⟩ : CalibBytes).h1_OUT : ℚ) -
          ((⟨0x00, 0x00, 0xE8, 0x03, 40, 140⟩ : CalibBytes).h0_OUT : ℚ)) ∧
      i = ((140 : Nat) : ℚ) / 2 -
        g * ((⟨0x00, 0x00, 0xE8, 0x03, 40, 140⟩ : CalibBytes).h1_OUT : ℚ) ∧
      g * ((⟨0x00, 0x00, 0xE8, 0x03, 40, 140⟩ : CalibBytes).h0_OUT : ℚ) + i =
        ((40 : Nat) : ℚ) / 2 ∧
      g * ((⟨0x00, 0x00, 0xE8, 0x03, 40, 140⟩ : CalibBytes).h1_OUT : ℚ) + i =
        ((140 : Nat) : ℚ) / 2 ∧
      humidityOf ⟨0x00, 0x00, 0xE8, 0x03, 40, 140⟩ 0x00 0x00 = Dbl.fin (((40 : Nat) : ℚ) / 2) ∧
      humidityOf ⟨0x00, 0x00, 0xE8, 0x03, 40, 140⟩ 0x03 0xE8 = Dbl.fin (((140 : Nat) : ℚ) / 2) :=
  ⟨by decide, linear_interpolation ⟨0x00, 0x00, 0xE8, 0x03, 40, 140⟩ (by decide)⟩

/-- Equal raw outputs never give a finite slope: the divisor of line 98 is zero. -/
theorem gradient_not_finite (b0 b1 : Nat) (r : Int) :
    (gradient (h_rH b0) (h_rH b1) r r).isFinite = false := by
  simp only [gradient, h_rH_eq, Dbl.sub, Dbl.neg, Dbl.add, Dbl.div, Dbl.ofInt, sub_self,
    Int.cast_zero, if_true, Dbl.infTimes]
  split
  · rfl
  · split <;> rfl

/-- Whenever the two assembled raw outputs are equal, the program goes on with
a slope that is an infinity or `NaN`. -/
theorem calib_gradient_not_finite (c : CalibBytes) (h : c.h0_OUT = c.h1_OUT) :
    c.gradient.isFinite = false := by
  unfold CalibBytes.gradient
  rw [h]
  exact gradient_not_finite _ _ _

/-- Claim C2, evaluated on the code: with the calibration bytes
`H0_OUT = H1_OUT = 0`, `H0_rH_x2 = 40`, `H1_rH_x2 = 140` the two raw outputs are
equal, no error is raised, the slope of line 98 is `+inf`, the intercept of line
101 is `NaN` and the humidity computed for the live word 500 is `NaN`; with equal
value bytes as well the slope is `NaN`, as it is when every register read fails
and returns -1 (all bytes `0xFF`). -/
theorem equal_raw_outputs_no_error :
    (⟨0, 0, 0, 0, 40, 140⟩ : CalibBytes).h0_OUT = (⟨0, 0, 0, 0, 40, 140⟩ : CalibBytes).h1_OUT ∧
    (⟨0, 0, 0, 0, 40, 140⟩ : CalibBytes).gradient = Dbl.pinf ∧
    (⟨0, 0, 0, 0, 40, 140⟩ : CalibBytes).y_intercept = Dbl.nan ∧
    humidityOf ⟨0, 0, 0, 0, 40, 140⟩ 0x01 0xF4 = Dbl.nan ∧
    (⟨0, 0, 0, 0, 40, 40⟩ : CalibBytes).gradient = Dbl.nan ∧
    (readCalib fun _ => -1).h0_OUT = (readCalib fun _ => -1).h1_OUT ∧
    (readCalib fun _ => -1).gradient = Dbl.nan := by
  decide!

/-- Claim C6 as stated fails in the `double` arithmetic of the program: with
the calibration raw outputs -50 and 10 (bytes `0xCE`/`0xFF` and `0x0A`/`0x00`),
the value bytes 0 and 10 (0 % and 5 %) and the live word -20 (bytes
`0xEC`/`0xFF`), the reading is the midpoint of the two raw outputs, the slope
of line 98 is the `double` nearest to 1/12, and the humidity of line 111 is
`2.5 + 2 ^ (-51)`, not the mean 2.5 of the two calibration values. -/
theorem midpoint_rounding_counterexample :
    ((⟨0xCE, 0xFF, 0x0A, 0x00, 0, 10⟩ : CalibBytes).h0_OUT = -50 ∧
      (⟨0xCE, 0xFF, 0x0A, 0x00, 0, 10⟩ : CalibBytes).h1_OUT = 10 ∧
      assembleInt16 0xFF 0xEC = -20 ∧ 2 * (-20 : Int) = -50 + 10) ∧
    (h_rH64 0 = Dbl.fin 0 ∧ h_rH64 10 = Dbl.fin 5) ∧
    (⟨0xCE, 0xFF, 0x0A, 0x00, 0, 10⟩ : CalibBytes).gradient64 =
      Dbl.fin (6004799503160661 / 72057594037927936) ∧
    humidityOf64 ⟨0xCE, 0xFF, 0x0A, 0x00, 0, 10⟩ 0xFF 0xEC =
      Dbl.fin (5 / 2 + 1 / 2251799813685248) ∧
    humidityOf64 ⟨0xCE, 0xFF, 0x0A, 0x00, 0, 10⟩ 0xFF 0xEC ≠
      Dbl.fin ((((0 : Nat) : ℚ) / 2 + ((10 : Nat) : ℚ) / 2) / 2) := by
  decide!

/-- Claim C6, amended: with the calibration points (raw 0, 20 %) and
(raw 1000, 70 %) the humidity for the live word 500 is exactly 45, in the
`double` arithmetic of the program as in exact arithmetic; in general, when
the live word is the midpoint of two different calibration raw outputs, the
humidity is the mean of the two calibration values in exact arithmetic. -/
theorem midpoint_linearity :
    humidityOf64 ⟨0x00, 0x00, 0xE8, 0x03, 40, 140⟩ 0x01 0xF4 = Dbl.fin 45 ∧
    humidityOf ⟨0x00, 0x00, 0xE8, 0x03, 40, 140⟩ 0x01 0xF4 = Dbl.fin 45 ∧
    ∀ (c : CalibBytes) (humidity_MSB humidity_LSB : Nat), c.h0_OUT ≠ c.h1_OUT →
      2 * assembleInt16 humidity_MSB humidity_LSB = c.h0_OUT + c.h1_OUT →
      humidityOf c humidity_MSB humidity_LSB =
        Dbl.fin (((c.h0_rH_x2 : ℚ) / 2 + (c.h1_rH_x2 : ℚ) / 2) / 2) := by
  refine ⟨by decide!, by decide!, ?_⟩
  intro c msb lsb hne hmid
  have hd := cast_sub_ne_zero c.h0_OUT c.h1_OUT hne
  have hg : c.gradient = _ := gradient_fin c.h0_rH_x2 c.h1_rH_x2 c.h0_OUT c.h1_OUT hne
  have hi : c.y_intercept = _ := y_intercept_fin c.h0_rH_x2 c.h1_rH_x2 c.h0_OUT c.h1_OUT hne
  have hh : ((assembleInt16 msb lsb : Int) : ℚ) = ((c.h0_OUT : ℚ) + (c.h1_OUT : ℚ)) / 2 := by
    have : ((2 * assembleInt16 msb lsb : Int) : ℚ) = ((c.h0_OUT + c.h1_OUT : Int) : ℚ) := by
      rw [hmid]
    push_cast at this
    linarith
  unfold humidityOf
  rw [hg, hi, H_rH_fin, hh]
  refine congrArg Dbl.fin ?_
  field_simp
  ring

/-- Claim C6, amended, the general part at the points (raw 0, 20 %),
(raw 1000, 70 %) and the live word 500. -/
theorem midpoint_linearity_witness :
    (⟨0x00, 0x00, 0xE8, 0x03, 40, 140⟩ : CalibBytes).h0_OUT ≠
      (⟨0x00, 0x00, 0xE8, 0x03, 40, 140⟩ : CalibBytes).h1_OUT ∧
    2 * assembleInt16 0x01 0xF4 =
      (⟨0x00, 0x00, 0xE8, 0x03, 40, 140⟩ : CalibBytes).h0_OUT +
        (⟨0x00, 0x00, 0xE8, 0x03, 40, 140⟩ : CalibBytes).h1_OUT ∧
    humidityOf ⟨0x00, 0x00, 0xE8, 0x03, 40, 140⟩ 0x01 0xF4 =
      Dbl.fin ((((40 : Nat) : ℚ) / 2 + ((140 : Nat) : ℚ) / 2) / 2) :=
  ⟨by decide, by decide,
    midpoint_linearity.2.2 ⟨0x00, 0x00, 0xE8, 0x03, 40, 140⟩ 0x01 0xF4 (by decide) (by decide)⟩

/-- Claim C10: the humidity of line 111 is `gradient * h + intercept` for every
finite slope and intercept and every raw word `h`, and is what an iteration of
the loop reports, with no clamping to `[0, 100]`: with the calibration points
(raw 0, 20 %) and (raw 1000, 70 %) the raw word 2000 gives 120, above 100, and
the raw word -1000 gives -30, below 0. -/
theorem humidity_not_clamped :
    (∀ (g i : ℚ) (h : Int), H_rH (Dbl.fin g) (Dbl.fin i) h = Dbl.fin (g * (h : ℚ) + i)) ∧
    (∀ (read : Nat → Int) (thermal : Option (List Nat)) (r : Report),
      loopBody read thermal = some r →
      r.H_rH = H_rH (readCalib read).gradient (readCalib read).y_intercept
        (assembleInt16 (toUInt8 (read HUMIDITY_OUT_H)) (toUInt8 (read HUMIDITY_OUT_L)))) ∧
    (assembleInt16 0x07 0xD0 = 2000 ∧
      humidityOf ⟨0x00, 0x00, 0xE8, 0x03, 40, 140⟩ 0x07 0xD0 = Dbl.fin 120 ∧ (100 : ℚ) < 120) ∧
    (assembleInt16 0xFC 0x18 = -1000 ∧
      humidityOf ⟨0x00, 0x00, 0xE8, 0x03, 40, 140⟩ 0xFC 0x18 = Dbl.fin (-30) ∧ (-30 : ℚ) < 0) := by
  refine ⟨H_rH_fin, ?_, ⟨by decide, by decide!, by norm_num⟩,
    ⟨by decide, by decide!, by norm_num⟩⟩
  intro read thermal r h
  unfold loopBody at h
  simp only at h
  split at h
  · rw [← Option.some.inj h]
    simp only [humidityOf]
  · exact Option.noConfusion h

/-- Claim C10 on one iteration of the loop: the example sensor with the host
file `45678` reports the humidity 120. -/
theorem humidity_not_clamped_witness :
    loopBody exampleRead (some [52, 53, 54, 55, 56, 10]) =
      some ⟨Dbl.fin 120, Dbl.fin (85 / 2 - ((45678 / 1000 - 85 / 2) / (5466 / 1000)) - 6)⟩ ∧
    (⟨Dbl.fin 120, Dbl.fin (85 / 2 - ((45678 / 1000 - 85 / 2) / (5466 / 1000)) - 6)⟩ :
        Report).H_rH =
      H_rH (readCalib exampleRead).gradient (readCalib exampleRead).y_intercept
        (assembleInt16 (toUInt8 (exampleRead HUMIDITY_OUT_H))
          (toUInt8 (exampleRead HUMIDITY_OUT_L))) :=
  ⟨by decide!,
    humidity_not_clamped.2.1 exampleRead (some [52, 53, 54, 55, 56, 10]) _ (by decide!)⟩

/-! ## Temperature (claims C3, C7) -/

/-- The loop of `bin2dec` returns as soon as the fuel exceeds `|tempNum|`. -/
theorem bin2decLoop_isSome (fuel : Nat) (tempNum decimal base : Int)
    (h : tempNum.natAbs < fuel) : (bin2decLoop fuel tempNum decimal base).isSome = true := by
  induction fuel generalizing tempNum decimal base with
  | zero => omega
  | succ fuel ih =>
    unfold bin2decLoop
    by_cases h0 : tempNum = 0
    · rw [if_pos h0]
      rfl
    · rw [if_neg h0]
      apply ih
      have hd : (tempNum.tdiv 10).natAbs = tempNum.natAbs / 10 := Int.natAbs_tdiv tempNum 10
      have hpos : 0 < tempNum.natAbs := Int.natAbs_pos.2 h0
      omega

/-- The function `bin2dec` returns for every argument. -/
theorem bin2dec_isSome (n : Int) : (bin2dec n).isSome = true :=
  bin2decLoop_isSome _ _ _ _ (Nat.lt_succ_self _)

/-- Claim C3, evaluated on the code: for the temperature bytes `LSB = 1`,
`MSB = 0` the word is 1 and `bin2dec` returns 1; line 119 divides the two `int`s
with the truncating division, so the package temperature is 42.5 and not
`42.5 + 1/480`. -/
theorem packageTemp_integer_division :
    assembleUInt16 0 1 = 1 ∧ bin2dec 1 = some 1 ∧
    tempOf 0 1 = some (Dbl.fin (85 / 2)) ∧
    tempOf 0 1 ≠ some (Dbl.fin (85 / 2 + 1 / 480)) := by
  decide!

/-- Claim C7: for a package temperature `t` and a host temperature `c` the
corrected temperature of line 124 is `t - ((c - t) / 5.466) - 6`; for `t = 25`
and `c = 40` it is within 0.001 of 16.256. -/
theorem host_correction_formula :
    (∀ t c : ℚ, accurateTemp (Dbl.fin t) (Dbl.fin c) = Dbl.fin (t - ((c - t) / 5.466) - 6)) ∧
    ∃ q : ℚ, accurateTemp (Dbl.fin 25) (Dbl.fin 40) = Dbl.fin q ∧ |q - 16.256| < 1 / 1000 := by
  have key : ∀ t c : ℚ,
      accurateTemp (Dbl.fin t) (Dbl.fin c) = Dbl.fin (t - ((c - t) / 5.466) - 6) := by
    intro t c
    have h5 : (5466 / 1000 : ℚ) ≠ 0 := by norm_num
    simp only [accurateTemp, Dbl.sub, Dbl.neg, Dbl.add, Dbl.div, Dbl.ofInt, if_neg h5]
    congr 1
    norm_num
    ring
  refine ⟨key, _, key 25 40, ?_⟩
  rw [abs_lt]
  constructor <;> norm_num

/-! ## Host temperature (claims C8, C9) -/

/-- Every byte of the string `fgets` stores is a byte of the file. -/
theorem mem_cstr_fgetsRead (n : Nat) (content : List Nat) (x : Nat)
    (hx : x ∈ cstr (fgetsRead n content)) : x ∈ content := by
  induction content generalizing n with
  | nil => cases n <;> simp [fgetsRead, cstr] at hx
  | cons c cs ih =>
    cases n with
    | zero => simp [fgetsRead, cstr] at hx
    | succ n =>
      by_cases hc : c = 10
      · subst hc
        simp [fgetsRead, cstr] at hx
        simp [hx]
      · by_cases h0 : c = 0
        · subst h0
          simp [fgetsRead, cstr] at hx
        · simp only [fgetsRead, if_neg hc, cstr] at hx
          rw [List.takeWhile_cons_of_pos (by simpa using h0)] at hx
          rcases List.mem_cons.1 hx with h | h
          · simp [h]
          · exact List.mem_cons_of_mem _ (ih n h)

/-- When the string `fgets` stores holds a newline, its part before the newline is
the first line of the file. -/
theorem takeWhile_cstr_fgetsRead (n : Nat) (content : List Nat)
    (h : 10 ∈ cstr (fgetsRead n content)) :
    (cstr (fgetsRead n content)).takeWhile (fun c => c ≠ 10) =
      content.takeWhile (fun c => c ≠ 10) := by
  induction content generalizing n with
  | nil => cases n <;> simp [fgetsRead, cstr] at h
  | cons c cs ih =>
    cases n with
    | zero => simp [fgetsRead, cstr] at h
    | succ n =>
      by_cases hc : c = 10
      · subst hc
        simp [fgetsRead, cstr]
      · by_cases h0 : c = 0
        · subst h0
          simp [fgetsRead, cstr] at h
        · simp only [fgetsRead, if_neg hc, cstr] at h ⊢
          rw [List.takeWhile_cons_of_pos (by simpa using h0)] at h ⊢
          have h2 : 10 ∈ List.takeWhile (fun c => decide (c ≠ 0)) (fgetsRead n cs) := by
            rcases List.mem_cons.1 h with h | h
            · exact absurd h.symm hc
            · exact h
          rw [List.takeWhile_cons_of_pos (by simpa using hc),
            List.takeWhile_cons_of_pos (by simpa using hc)]
          congr 1
          exact ih n h2

/-- The digits are the byte codes 48 to 57. -/
theorem isdigit_iff (c : Nat) : isdigit c = true ↔ 48 ≤ c ∧ c ≤ 57 := by
  simp [isdigit]

/-- A line of digits shorter than the buffer is stored whole, with its newline. -/
theorem cstr_fgetsRead_line (n : Nat) (ds rest : List Nat)
    (hd : ∀ c ∈ ds, isdigit c = true) (hlen : ds.length < n) :
    cstr (fgetsRead n (ds ++ 10 :: rest)) = ds ++ [10] := by
  induction ds generalizing n with
  | nil =>
    cases n with
    | zero => simp at hlen
    | succ n => simp [fgetsRead, cstr]
  | cons c cs ih =>
    cases n with
    | zero => simp at hlen
    | succ n =>
      have hc := (isdigit_iff c).1 (hd c (List.mem_cons_self _ _))
      have hc10 : c ≠ 10 := by omega
      have hc0 : c ≠ 0 := by omega
      simp only [List.cons_append, fgetsRead, if_neg hc10, cstr]
      rw [List.takeWhile_cons_of_pos (by simpa using hc0)]
      congr 1
      exact ih n (fun x hx => hd x (List.mem_cons_of_mem _ hx)) (by simpa using hlen)

/-- The digit loop of `atoi` computes the decimal value of a digit string. -/
theorem atoiDigits_eq (ds : List Nat) (hd : ∀ c ∈ ds, isdigit c = true) (acc : Nat) :
    atoiDigits (acc : Int) ds =
      ((acc * 10 ^ ds.length + Nat.ofDigits 10 ((ds.map fun c => c - 48).reverse) : Nat) : Int) := by
  induction ds generalizing acc with
  | nil => simp [atoiDigits]
  | cons c cs ih =>
    have hc := (isdigit_iff c).1 (hd c (List.mem_cons_self _ _))
    have hcast : (acc : Int) * 10 + ((c : Int) - 48) = ((acc * 10 + (c - 48) : Nat) : Int) := by
      omega
    simp only [atoiDigits, hd c (List.mem_cons_self _ _), if_true, hcast]
    rw [ih (fun x hx => hd x (List.mem_cons_of_mem _ hx))]
    simp only [List.map_cons, List.reverse_cons, Nat.ofDigits_append, Nat.ofDigits_singleton,
      List.length_reverse, List.length_map, List.length_cons]
    congr 1
    ring

/-- On a digit string whose value fits in an `int`, `atoi` returns that value. -/
theorem atoi_digits (ds : List Nat) (hd : ∀ c ∈ ds, isdigit c = true)
    (hv : Nat.ofDigits 10 ((ds.map fun c => c - 48).reverse) ≤ 2147483647) :
    atoi ds = some ((Nat.ofDigits 10 ((ds.map fun c => c - 48).reverse) : Nat) : Int) := by
  have hval := atoiDigits_eq ds hd 0
  simp only [Nat.zero_mul, Nat.zero_add, Nat.cast_zero] at hval
  cases ds with
  | nil => simp [atoi, atoiDigits]
  | cons c cs =>
    have hc := (isdigit_iff c).1 (hd c (List.mem_cons_self _ _))
    have hsp : isspace c = false := by
      simp [isspace]; omega
    have h45 : c ≠ 45 := by omega
    have h43 : c ≠ 43 := by omega
    simp only [atoi, List.dropWhile_cons, hsp, List.head?_cons, Option.some.injEq, h45, h43,
      or_self, if_false, Bool.false_eq_true, hval]
    rw [if_pos]
    omega

/-- The text reaching `atoi` for a non-empty file. -/
theorem cpuLine_some (content : List Nat) (hne : content ≠ []) :
    cpuLine (some content) =
      if 10 ∈ cstr (fgetsRead 255 content) then
        (if (content.takeWhile (fun c => c ≠ 10)).all isdigit
          then content.takeWhile (fun c => c ≠ 10) else [48])
      else [48] := by
  simp only [cpuLine, fgets, if_neg hne]
  by_cases h : 10 ∈ cstr (fgetsRead 255 content)
  · have h2 : 10 ∈ cstr (fgetsRead (256 - 1) content) := h
    rw [if_pos h2, if_pos h]
    have e := takeWhile_cstr_fgetsRead 255 content h
    have e2 : List.takeWhile (fun c => decide (c ≠ 10)) (cstr (fgetsRead (256 - 1) content)) =
        List.takeWhile (fun c => decide (c ≠ 10)) content := e
    rw [e2]
  · have h2 : ¬ 10 ∈ cstr (fgetsRead (256 - 1) content) := h
    rw [if_neg h2, if_neg h]
    rfl

/-- When the text reaching `atoi` is `"0"`, the result is 0.0. -/
theorem getcputemp_of_cpuLine_zero (f : Option (List Nat)) (h : cpuLine f = [48]) :
    getcputemp f = some (Dbl.fin 0) := by
  have ha : atoi [48] = some 0 := by decide
  simp [getcputemp, h, ha, Dbl.div, Dbl.ofInt]

/-- Claim C9: `getcputemp` returns exactly 0.0, and does return, whenever the
thermal file cannot be opened, is empty, or has a first line (the text before
the first newline) holding a character that is not a decimal digit. -/
theorem getcputemp_degraded (f : Option (List Nat))
    (h : f = none ∨ f = some [] ∨
      ∃ content, f = some content ∧
        ∃ c ∈ content.takeWhile (fun c => c ≠ 10), isdigit c = false) :
    getcputemp f = some (Dbl.fin 0) := by
  apply getcputemp_of_cpuLine_zero
  rcases h with h | h | ⟨content, h, c, hc, hnd⟩
  · subst h; decide
  · subst h; decide
  · subst h
    have hne : content ≠ [] := by
      intro h0
      subst h0
      simp at hc
    rw [cpuLine_some content hne]
    split
    · rw [if_neg]
      intro hall
      rw [List.all_eq_true] at hall
      have := hall c hc
      rw [hnd] at this
      exact absurd this (by decide)
    · rfl

/-- Claim C9 at the first line `-12`, whose sign is not a digit. -/
theorem getcputemp_degraded_witness :
    ((some [45, 49, 50, 10] : Option (List Nat)) = none ∨
      (some [45, 49, 50, 10] : Option (List Nat)) = some [] ∨
      ∃ content, (some [45, 49, 50, 10] : Option (List Nat)) = some content ∧
        ∃ c ∈ content.takeWhile (fun c => c ≠ 10), isdigit c = false) ∧
    getcputemp (some [45, 49, 50, 10]) = some (Dbl.fin 0) :=
  ⟨Or.inr (Or.inr ⟨[45, 49, 50, 10], rfl, 45, by decide, by decide⟩),
    getcputemp_degraded (some [45, 49, 50, 10])
      (Or.inr (Or.inr ⟨[45, 49, 50, 10], rfl, 45, by decide, by decide⟩))⟩

/-- Claim C8 as stated fails: the text `45678` with no newline after the digits
is five decimal digits of value 45678, and `getcputemp` returns 0.0 for it, not
45.678 (lines 166-172 reset the line to `"0"` when it holds no newline). -/
theorem getcputemp_no_newline_counterexample :
    (∀ c ∈ [52, 53, 54, 55, 56], isdigit c = true) ∧
    Nat.ofDigits 10 (([52, 53, 54, 55, 56].map fun c => c - 48).reverse) = 45678 ∧
    getcputemp (some [52, 53, 54, 55, 56]) = some (Dbl.fin 0) ∧
    getcputemp (some [52, 53, 54, 55, 56]) ≠ some (Dbl.fin (45678 / 1000)) := by
  refine ⟨by decide, by decide, by decide!, by decide!⟩

/-- Claim C8, amended: for a first line of decimal digits (at least one), when
the digits are followed by a newline, are at most 254 and have a value that
fits in an `int`, the result is that value divided by 1000; when no newline
follows the digits (they end the file), the result is 0.0. -/
theorem getcputemp_well_formed (ds : List Nat) (hd : ∀ c ∈ ds, isdigit c = true)
    (hlen : 1 ≤ ds.length) :
    (∀ rest : List Nat, ds.length ≤ 254 →
      Nat.ofDigits 10 ((ds.map fun c => c - 48).reverse) ≤ 2147483647 →
      getcputemp (some (ds ++ 10 :: rest)) =
        some (Dbl.fin (((Nat.ofDigits 10 ((ds.map fun c => c - 48).reverse) : Nat) : ℚ) / 1000))) ∧
    getcputemp (some ds) = some (Dbl.fin 0) := by
  constructor
  · intro rest h254 hv
    have hline : cstr (fgetsRead 255 (ds ++ 10 :: rest)) = ds ++ [10] :=
      cstr_fgetsRead_line 255 ds rest hd (by omega)
    have htw : (ds ++ 10 :: rest).takeWhile (fun c => c ≠ 10) = ds := by
      have := takeWhile_cstr_fgetsRead 255 (ds ++ 10 :: rest) (by rw [hline]; simp)
      rw [← this, hline]
      rw [List.takeWhile_append_of_pos]
      · simp
      · intro c hc
        have := (isdigit_iff c).1 (hd c hc)
        simp
        omega
    have hall : ds.all isdigit = true := by
      rw [List.all_eq_true]
      exact hd
    have hcl : cpuLine (some (ds ++ 10 :: rest)) = ds := by
      rw [cpuLine_some _ (by simp), hline, if_pos (by simp), htw, if_pos hall]
    have h1000 : ((1000 : Int) : ℚ) ≠ 0 := by norm_num
    simp only [getcputemp, hcl, atoi_digits ds hd hv, Option.map, Dbl.div, Dbl.ofInt,
      if_neg h1000]
    norm_num
  · apply getcputemp_of_cpuLine_zero
    have hne : ds ≠ [] := by
      intro h0
      subst h0
      simp at hlen
    rw [cpuLine_some ds hne, if_neg]
    intro hmem
    have := (isdigit_iff 10).1 (hd 10 (mem_cstr_fgetsRead 255 ds 10 hmem))
    omega

/-- Claim C8, amended, at the digits `45678`: with a newline the result is
45678 / 1000, without one it is 0.0. -/
theorem getcputemp_well_formed_witness :
    (∀ c ∈ [52, 53, 54, 55, 56], isdigit c = true) ∧
    1 ≤ [52, 53, 54, 55, 56].length ∧
    [52, 53, 54, 55, 56].length ≤ 254 ∧
    Nat.ofDigits 10 (([52, 53, 54, 55, 56].map fun c => c - 48).reverse) ≤ 2147483647 ∧
    getcputemp (some ([52, 53, 54, 55, 56] ++ 10 :: [])) =
      some (Dbl.fin
        (((Nat.ofDigits 10 (([52, 53, 54, 55, 56].map fun c => c - 48).reverse) : Nat) : ℚ) /
          1000)) ∧
    getcputemp (some [52, 53, 54, 55, 56]) = some (Dbl.fin 0) :=
  ⟨by decide, by decide, by decide, by decide,
    (getcputemp_well_formed [52, 53, 54, 55, 56] (by decide) (by decide)).1 [] (by decide)
      (by decide),
    (getcputemp_well_formed [52, 53, 54, 55, 56] (by decide) (by decide)).2⟩


/-! ## Digit reinterpretation (claim C11) -/

/-- The loop of `bin2dec` on a non-negative `tempNum`: each decimal digit, from
the lowest, is added with the current power of two. -/
theorem bin2decLoop_digits (fuel t d b : Nat) (h : t < fuel) :
    bin2decLoop fuel (t : Int) (d : Int) (b : Int) =
      some ((d + b * Nat.ofDigits 2 (Nat.digits 10 t) : Nat) : Int) := by
  induction fuel generalizing t d b with
  | zero => omega
  | succ fuel ih =>
    unfold bin2decLoop
    by_cases h0 : t = 0
    · subst h0
      simp
    · have hne : (t : Int) ≠ 0 := by exact_mod_cast h0
      rw [if_neg hne]
      have hdiv : (t : Int).tdiv 10 = ((t / 10 : Nat) : Int) := (Int.ofNat_tdiv t 10).symm
      have hmod : (t : Int).tmod 10 = ((t % 10 : Nat) : Int) := (Int.ofNat_tmod t 10).symm
      have e1 : (d : Int) + (t : Int).tmod 10 * (b : Int) = ((d + t % 10 * b : Nat) : Int) := by
        rw [hmod]; push_cast; ring
      have e2 : (b : Int) * 2 = ((b * 2 : Nat) : Int) := by push_cast; ring
      rw [hdiv, e1, e2, ih (t / 10) (d + t % 10 * b) (b * 2) (by omega)]
      have hpos : 0 < t := Nat.pos_of_ne_zero h0
      rw [Nat.digits_def' (by norm_num : 1 < 10) hpos, Nat.ofDigits_cons]
      congr 2
      ring

/-- On a non-negative argument `bin2dec` returns the decimal digits weighted by
powers of two. -/
theorem bin2dec_ofDigits (n : Nat) :
    bin2dec (n : Int) = some ((Nat.ofDigits 2 (Nat.digits 10 n) : Nat) : Int) := by
  have h := bin2decLoop_digits (n + 1) n 0 1 (Nat.lt_succ_self n)
  simp only [Nat.zero_add, Nat.one_mul] at h
  unfold bin2dec
  rw [Int.natAbs_ofNat]
  exact_mod_cast h

/-- A number below `10 ^ k` is reinterpreted as at most `9 * (2 ^ k - 1)`. -/
theorem ofDigits_two_digits_ten_le (k n : Nat) (h : n < 10 ^ k) :
    Nat.ofDigits 2 (Nat.digits 10 n) ≤ 9 * (2 ^ k - 1) := by
  induction k generalizing n with
  | zero =>
    have : n = 0 := by simpa using h
    subst this
    simp
  | succ k ih =>
    by_cases h0 : n = 0
    · subst h0
      simp
    · have hpos : 0 < n := Nat.pos_of_ne_zero h0
      rw [Nat.digits_def' (by norm_num : 1 < 10) hpos, Nat.ofDigits_cons]
      have hk : n / 10 < 10 ^ k := by
        rw [Nat.div_lt_iff_lt_mul (by norm_num)]
        rw [pow_succ] at h
        exact h
      have := ih (n / 10) hk
      have h2 : 1 ≤ 2 ^ k := Nat.one_le_two_pow
      have h3 : 2 ^ (k + 1) = 2 * 2 ^ k := by ring
      have h4 : n % 10 < 10 := Nat.mod_lt _ (by norm_num)
      omega

/-- Claim C11: for every non-negative `n`, with decimal digits `d_0, d_1, ...`
from the lowest (so that `n` is the sum of `d_i * 10 ^ i`), `bin2dec` returns,
and returns the sum of `d_i * 2 ^ i`; `bin2dec(0) = 0`.  When every decimal
digit of `n` is 0 or 1 the binary digits of the result are the decimal digits
of `n`, as for `bin2dec(1011) = 11`; other digits are weighted by the powers of
two all the same, as for `bin2dec(29) = 13`. -/
theorem bin2dec_digit_reinterpretation (n : Nat) :
    ((Nat.digits 10 n).mapIdx fun i d => d * 10 ^ i).sum = n ∧
    bin2dec (n : Int) =
      some ((((Nat.digits 10 n).mapIdx fun i d => d * 2 ^ i).sum : Nat) : Int) ∧
    ((∀ d ∈ Nat.digits 10 n, d = 0 ∨ d = 1) →
      ∃ r : Nat, bin2dec (n : Int) = some (r : Int) ∧ Nat.digits 2 r = Nat.digits 10 n) ∧
    bin2dec 0 = some 0 ∧ bin2dec 1011 = some 11 ∧ bin2dec 29 = some 13 := by
  refine ⟨?_, ?_, ?_, by decide, by decide, by decide⟩
  · rw [← Nat.ofDigits_eq_sum_mapIdx, Nat.ofDigits_digits]
  · rw [← Nat.ofDigits_eq_sum_mapIdx]
    exact bin2dec_ofDigits n
  · intro hd
    refine ⟨_, bin2dec_ofDigits n, ?_⟩
    apply Nat.digits_ofDigits 2 (by norm_num)
    · intro l hl
      rcases hd l hl with h | h <;> omega
    · intro hne
      have hn : n ≠ 0 := by
        intro h0
        subst h0
        simp at hne
      exact Nat.getLast_digit_ne_zero 10 hn

/-- Claim C11 at `n = 1011`, whose decimal digits are all 0 or 1. -/
theorem bin2dec_digit_reinterpretation_witness :
    (∀ d ∈ Nat.digits 10 1011, d = 0 ∨ d = 1) ∧
    ∃ r : Nat, bin2dec ((1011 : Nat) : Int) = some (r : Int) ∧
      Nat.digits 2 r = Nat.digits 10 1011 :=
  ⟨by norm_num, (bin2dec_digit_reinterpretation 1011).2.2.1 (by norm_num)⟩


/-! ## Constant package temperature and the correction (claims C13, C14) -/

/-- The unsigned word is in `[0, 65535]` for every pair of bytes. -/
theorem assembleUInt16_range (msb lsb : Nat) :
    0 ≤ assembleUInt16 msb lsb ∧ assembleUInt16 msb lsb ≤ 65535 := by
  unfold assembleUInt16 toUInt16
  omega

/-- On a 16-bit word `bin2dec` returns a value in `[0, 279]`. -/
theorem bin2dec_word (w : Int) (h0 : 0 ≤ w) (h1 : w ≤ 65535) :
    ∃ r : Int, bin2dec w = some r ∧ 0 ≤ r ∧ r ≤ 279 := by
  obtain ⟨n, rfl⟩ := Int.eq_ofNat_of_zero_le h0
  have hn : n < 10 ^ 5 := by
    have : n ≤ 65535 := by exact_mod_cast h1
    omega
  have hb := ofDigits_two_digits_ten_le 5 n hn
  refine ⟨_, bin2dec_ofDigits n, by positivity, ?_⟩
  have : Nat.ofDigits 2 (Nat.digits 10 n) ≤ 279 := by
    norm_num at hb
    exact hb
  exact_mod_cast this

/-- The package temperature of line 119 is 42.5 for every 16-bit word. -/
theorem packageTemp_word (w : Int) (h0 : 0 ≤ w) (h1 : w ≤ 65535) :
    packageTemp w = some (Dbl.fin (85 / 2)) := by
  obtain ⟨r, hr, hr0, hr1⟩ := bin2dec_word w h0 h1
  have hq : r.tdiv temp_scale = 0 :=
    Int.tdiv_eq_zero_of_lt hr0 (by unfold temp_scale; omega)
  simp [packageTemp, hr, hq, Dbl.add, Dbl.ofInt, temp_offset]

/-- The corrected temperature of line 124 on finite values. -/
theorem accurateTemp_fin (t c : ℚ) :
    accurateTemp (Dbl.fin t) (Dbl.fin c) = Dbl.fin (t - ((c - t) / 5.466) - 6) := by
  have h5 : (5466 / 1000 : ℚ) ≠ 0 := by norm_num
  simp only [accurateTemp, Dbl.sub, Dbl.neg, Dbl.add, Dbl.div, Dbl.ofInt, if_neg h5]
  refine congrArg Dbl.fin ?_
  norm_num
  ring

/-- Claim C13: for every raw temperature word `w` in `[0, 65535]`, `bin2dec(w)`
is below 480, the integer division by `temp_scale` of line 119 gives 0 and the
package temperature is exactly 42.5; so it is for every pair of temperature
bytes, and the corrected temperature an iteration reports depends on the host
temperature `c` alone: it is `42.5 - (c - 42.5) / 5.466 - 6`. -/
theorem temperature_constant :
    (∀ w : Int, 0 ≤ w → w ≤ 65535 →
      ∃ r : Int, bin2dec w = some r ∧ r < 480 ∧ r.tdiv temp_scale = 0 ∧
        packageTemp w = some (Dbl.fin 42.5)) ∧
    (∀ temp_OUT_MSB temp_OUT_LSB : Nat,
      tempOf temp_OUT_MSB temp_OUT_LSB = some (Dbl.fin 42.5)) ∧
    (∀ (read : Nat → Int) (thermal : Option (List Nat)) (c : ℚ),
      getcputemp thermal = some (Dbl.fin c) →
      ∃ r : Report, loopBody read thermal = some r ∧
        r.accurateTemp = Dbl.fin (42.5 - (c - 42.5) / 5.466 - 6)) := by
  have h425 : (42.5 : ℚ) = 85 / 2 := by norm_num
  have htemp : ∀ msb lsb : Nat, tempOf msb lsb = some (Dbl.fin 42.5) := by
    intro msb lsb
    have hr := assembleUInt16_range msb lsb
    rw [h425]
    exact packageTemp_word _ hr.1 hr.2
  refine ⟨?_, htemp, ?_⟩
  · intro w h0 h1
    obtain ⟨r, hr, hr0, hr1⟩ := bin2dec_word w h0 h1
    refine ⟨r, hr, by omega, Int.tdiv_eq_zero_of_lt hr0 (by unfold temp_scale; omega), ?_⟩
    rw [h425]
    exact packageTemp_word w h0 h1
  · intro read thermal c hc
    refine ⟨⟨humidityOf (readCalib read) (toUInt8 (read HUMIDITY_OUT_H))
      (toUInt8 (read HUMIDITY_OUT_L)), accurateTemp (Dbl.fin 42.5) (Dbl.fin c)⟩, ?_,
      accurateTemp_fin 42.5 c⟩
    simp only [loopBody, htemp, hc]

/-- Claim C13 at the temperature word 65535 and, for the report, at the
example sensor with the host file `45678`. -/
theorem temperature_constant_witness :
    ((0 : Int) ≤ 65535 ∧ (65535 : Int) ≤ 65535 ∧
      ∃ r : Int, bin2dec 65535 = some r ∧ r < 480 ∧ r.tdiv temp_scale = 0 ∧
        packageTemp 65535 = some (Dbl.fin 42.5)) ∧
    (getcputemp (some [52, 53, 54, 55, 56, 10]) = some (Dbl.fin (45678 / 1000)) ∧
      ∃ r : Report, loopBody exampleRead (some [52, 53, 54, 55, 56, 10]) = some r ∧
        r.accurateTemp = Dbl.fin (42.5 - (45678 / 1000 - 42.5) / 5.466 - 6)) :=
  ⟨⟨by decide, by decide, temperature_constant.1 65535 (by decide) (by decide)⟩,
    by decide!,
    temperature_constant.2.2 exampleRead (some [52, 53, 54, 55, 56, 10]) (45678 / 1000)
      (by decide!)⟩

/-- Claim C14: on finite values the corrected temperature of line 124,
`t - ((c - t) / 5.466) - 6`, is strictly decreasing in the host temperature `c`
for a fixed package temperature `t`, strictly increasing in `t` for a fixed
`c`, and equal to `t - 6` when `c = t`; so the degraded host reading `c = 0`
gives a strictly higher value than any positive host reading for the same `t`. -/
theorem correction_monotone :
    (∀ t c1 c2 : ℚ, c1 < c2 →
      ∃ q1 q2 : ℚ, accurateTemp (Dbl.fin t) (Dbl.fin c1) = Dbl.fin q1 ∧
        accurateTemp (Dbl.fin t) (Dbl.fin c2) = Dbl.fin q2 ∧ q2 < q1) ∧
    (∀ t1 t2 c : ℚ, t1 < t2 →
      ∃ q1 q2 : ℚ, accurateTemp (Dbl.fin t1) (Dbl.fin c) = Dbl.fin q1 ∧
        accurateTemp (Dbl.fin t2) (Dbl.fin c) = Dbl.fin q2 ∧ q1 < q2) ∧
    (∀ t : ℚ, accurateTemp (Dbl.fin t) (Dbl.fin t) = Dbl.fin (t - 6)) ∧
    (∀ t c : ℚ, 0 < c →
      ∃ q0 q : ℚ, accurateTemp (Dbl.fin t) (Dbl.fin 0) = Dbl.fin q0 ∧
        accurateTemp (Dbl.fin t) (Dbl.fin c) = Dbl.fin q ∧ q < q0) := by
  have hpos : (0 : ℚ) < 5.466 := by norm_num
  have hdec : ∀ t c1 c2 : ℚ, c1 < c2 →
      t - ((c2 - t) / 5.466) - 6 < t - ((c1 - t) / 5.466) - 6 := by
    intro t c1 c2 h
    have : (c1 - t) / 5.466 < (c2 - t) / 5.466 :=
      div_lt_div_of_pos_right (by linarith) hpos
    linarith
  refine ⟨?_, ?_, ?_, ?_⟩
  · intro t c1 c2 h
    exact ⟨_, _, accurateTemp_fin t c1, accurateTemp_fin t c2, hdec t c1 c2 h⟩
  · intro t1 t2 c h
    refine ⟨_, _, accurateTemp_fin t1 c, accurateTemp_fin t2 c, ?_⟩
    have : (c - t2) / 5.466 < (c - t1) / 5.466 :=
      div_lt_div_of_pos_right (by linarith) hpos
    linarith
  · intro t
    rw [accurateTemp_fin]
    refine congrArg Dbl.fin ?_
    simp
  · intro t c h
    exact ⟨_, _, accurateTemp_fin t 0, accurateTemp_fin t c, hdec t 0 c h⟩

/-- Claim C14 at the package temperature 42.5 with the host temperatures 40
and 45.678, at the package temperatures 25 and 42.5 with the host temperature
40, and at the host temperature 45.678 against the degraded reading 0. -/
theorem correction_monotone_witness :
    ((40 : ℚ) < 45.678 ∧
      ∃ q1 q2 : ℚ, accurateTemp (Dbl.fin 42.5) (Dbl.fin 40) = Dbl.fin q1 ∧
        accurateTemp (Dbl.fin 42.5) (Dbl.fin 45.678) = Dbl.fin q2 ∧ q2 < q1) ∧
    ((25 : ℚ) < 42.5 ∧
      ∃ q1 q2 : ℚ, accurateTemp (Dbl.fin 25) (Dbl.fin 40) = Dbl.fin q1 ∧
        accurateTemp (Dbl.fin 42.5) (Dbl.fin 40) = Dbl.fin q2 ∧ q1 < q2) ∧
    ((0 : ℚ) < 45.678 ∧
      ∃ q0 q : ℚ, accurateTemp (Dbl.fin 42.5) (Dbl.fin 0) = Dbl.fin q0 ∧
        accurateTemp (Dbl.fin 42.5) (Dbl.fin 45.678) = Dbl.fin q ∧ q < q0) :=
  ⟨⟨by norm_num, correction_monotone.1 42.5 40 45.678 (by norm_num)⟩,
    ⟨by norm_num, correction_monotone.2.1 25 42.5 40 (by norm_num)⟩,
    ⟨by norm_num, correction_monotone.2.2.2 42.5 45.678 (by norm_num)⟩⟩


/-! ## Calibration in the transition system (claim C12) -/

/-- The traced loop body makes the bus accesses `loopBodyEvents`, in this order. -/
theorem loopBodyTraced_trace (read : Nat → Int) (thermal : Option (List Nat))
    (trace : List BusEvent) :
    (loopBodyTraced read thermal trace).trace = trace ++ loopBodyEvents := by
  simp [loopBodyTraced, readByte, loopBodyEvents, loopBodyReads]

/-- The traced loop body derives the mapping from the calibration bytes it reads. -/
theorem loopBodyTraced_mapping (read : Nat → Int) (thermal : Option (List Nat))
    (trace : List BusEvent) :
    (loopBodyTraced read thermal trace).gradient = (readCalib read).gradient ∧
    (loopBodyTraced read thermal trace).y_intercept = (readCalib read).y_intercept := by
  simp only [loopBodyTraced, readByte, readCalib, CalibBytes.gradient, CalibBytes.y_intercept,
    CalibBytes.h0_OUT, CalibBytes.h1_OUT, and_self]

/-- The traced loop body prints what `loopBody` computes. -/
theorem loopBodyTraced_report (read : Nat → Int) (thermal : Option (List Nat))
    (trace : List BusEvent) :
    (loopBodyTraced read thermal trace).report = loopBody read thermal := by
  simp only [loopBodyTraced, readByte, loopBody, tempOf, humidityOf, readCalib,
    CalibBytes.gradient, CalibBytes.y_intercept, CalibBytes.h0_OUT, CalibBytes.h1_OUT]

/-- A step from the start-up with `open` and `ioctl` succeeding: the two writes
of the clean start, and nothing else. -/
theorem step_startup (w : World) (hopen : w.openOk = true) (hioctl : w.ioctlOk = true)
    (s : ProgState) (hs : s.phase = Phase.startup) :
    step w s = ProgState.mk Phase.polling s.iteration (s.trace ++ startupEvents) s.mapping
      s.reports := by
  simp [step, hs, hopen, hioctl, writeByte, startupEvents]

/-- A step in the loop: one iteration of the traced loop body. -/
theorem step_polling (w : World) (s : ProgState) (hs : s.phase = Phase.polling) :
    step w s = ProgState.mk Phase.polling (s.iteration + 1) (s.trace ++ loopBodyEvents)
      (some ((readCalib (w.sensor s.iteration)).gradient,
        (readCalib (w.sensor s.iteration)).y_intercept))
      (s.reports ++ [loopBody (w.sensor s.iteration) (w.thermal s.iteration)]) := by
  have h1 := loopBodyTraced_trace (w.sensor s.iteration) (w.thermal s.iteration) s.trace
  have h2 := loopBodyTraced_mapping (w.sensor s.iteration) (w.thermal s.iteration) s.trace
  have h3 := loopBodyTraced_report (w.sensor s.iteration) (w.thermal s.iteration) s.trace
  simp only [step, hs, h1, h2.1, h2.2, h3]

/-- A failing `open` or `ioctl` ends the program before any bus access. -/
theorem run_setup_failure (w : World) (h : w.openOk = false ∨ w.ioctlOk = false) (n : Nat) :
    (run w (n + 1)).phase = Phase.exited ∧ (run w (n + 1)).trace = [] := by
  induction n with
  | zero =>
    rcases h with h | h
    · simp [run, step, initState, h]
    · by_cases ho : w.openOk = false
      · simp [run, step, initState, ho]
      · simp [run, step, initState, ho, h]
  | succ n ih =>
    have e : run w (n + 1 + 1) = step w (run w (n + 1)) := rfl
    rw [e]
    simp only [step, ih.1]
    exact ⟨trivial, ih.2⟩

/-- After the start-up the program is in the loop, and `n` steps later it has
made `n` iterations. -/
theorem run_polling (w : World) (hopen : w.openOk = true) (hioctl : w.ioctlOk = true)
    (n : Nat) : (run w (n + 1)).phase = Phase.polling ∧ (run w (n + 1)).iteration = n := by
  induction n with
  | zero =>
    have e : run w (0 + 1) = step w initState := rfl
    rw [e, step_startup w hopen hioctl initState rfl]
    exact ⟨rfl, rfl⟩
  | succ n ih =>
    have e : run w (n + 1 + 1) = step w (run w (n + 1)) := rfl
    rw [e, step_polling w _ ih.1]
    exact ⟨rfl, by simp only [ih.2]⟩

/-- Claim C12 as stated fails: in the example world the start-up makes the two
writes of the clean start, reads no register and derives no mapping; the first
and the second iteration of the loop each read the calibration register
`H0_OUT_L` (and the five others) and derive the mapping; and in a world whose
calibration register `H1_rH_x2` changes after the first iteration, the mapping
of the second iteration is not the mapping of the first. -/
theorem calibration_read_in_loop :
    ((run exampleWorld 1).phase = Phase.polling ∧ (run exampleWorld 1).trace = startupEvents ∧
      (run exampleWorld 1).mapping = none) ∧
    (BusEvent.read H0_OUT_L ∈
        (run exampleWorld 2).trace.drop (run exampleWorld 1).trace.length ∧
      BusEvent.read H0_OUT_L ∈
        (run exampleWorld 3).trace.drop (run exampleWorld 2).trace.length ∧
      (run exampleWorld 2).mapping = some (Dbl.fin (1 / 20), Dbl.fin 20)) ∧
    ((run driftingWorld 2).mapping = some (Dbl.fin (1 / 20), Dbl.fin 20) ∧
      (run driftingWorld 3).mapping = some (Dbl.fin (2 / 25), Dbl.fin 20) ∧
      (run driftingWorld 2).mapping ≠ (run driftingWorld 3).mapping) := by
  decide!

/-- Claim C12, amended: when `open` and `ioctl` succeed, the start-up makes the
two writes to `CTRL_REG1`, reads no register and derives no mapping; every
iteration of the loop reads the six calibration registers among its ten reads
and derives `gradient` and `y_intercept` from the bytes it has just read; the
humidity it reports is computed with that mapping; and two iterations have the
same mapping whenever their calibration bytes are the same. -/
theorem calibration_every_iteration (w : World) (hopen : w.openOk = true)
    (hioctl : w.ioctlOk = true) (n : Nat) :
    ((run w 1).trace = startupEvents ∧ (∀ reg, BusEvent.read reg ∉ startupEvents) ∧
      (run w 1).mapping = none) ∧
    (run w (n + 1)).phase = Phase.polling ∧
    ((run w (n + 2)).trace = (run w (n + 1)).trace ++ loopBodyEvents ∧
      ∀ reg ∈ calibrationRegisters, BusEvent.read reg ∈ loopBodyEvents) ∧
    (run w (n + 2)).mapping =
      some ((readCalib (w.sensor n)).gradient, (readCalib (w.sensor n)).y_intercept) ∧
    ((run w (n + 2)).reports =
        (run w (n + 1)).reports ++ [loopBody (w.sensor n) (w.thermal n)] ∧
      ∀ r : Report, loopBody (w.sensor n) (w.thermal n) = some r →
        r.H_rH = H_rH (readCalib (w.sensor n)).gradient (readCalib (w.sensor n)).y_intercept
          (assembleInt16 (toUInt8 (w.sensor n HUMIDITY_OUT_H))
            (toUInt8 (w.sensor n HUMIDITY_OUT_L)))) ∧
    (∀ m : Nat, readCalib (w.sensor m) = readCalib (w.sensor n) →
      (run w (m + 2)).mapping = (run w (n + 2)).mapping) := by
  have hstep : ∀ k : Nat, run w (k + 2) =
      ProgState.mk Phase.polling (k + 1) ((run w (k + 1)).trace ++ loopBodyEvents)
        (some ((readCalib (w.sensor k)).gradient, (readCalib (w.sensor k)).y_intercept))
        ((run w (k + 1)).reports ++ [loopBody (w.sensor k) (w.thermal k)]) := by
    intro k
    have hp := run_polling w hopen hioctl k
    have e : run w (k + 2) = step w (run w (k + 1)) := rfl
    rw [e, step_polling w _ hp.1, hp.2]
  have h1 : run w 1 = ProgState.mk Phase.polling 0 ([] ++ startupEvents) none [] := by
    have e : run w 1 = step w initState := rfl
    rw [e, step_startup w hopen hioctl initState rfl]
    rfl
  refine ⟨⟨?_, ?_, ?_⟩, (run_polling w hopen hioctl n).1, ⟨?_, ?_⟩, ?_, ⟨?_, ?_⟩, ?_⟩
  · rw [h1]
    rfl
  · intro reg
    simp [startupEvents]
  · rw [h1]
  · rw [hstep n]
  · decide
  · rw [hstep n]
  · rw [hstep n]
  · intro r hr
    unfold loopBody at hr
    simp only at hr
    split at hr
    · rw [← Option.some.inj hr]
      simp only [humidityOf]
    · exact Option.noConfusion hr
  · intro m hm
    rw [hstep m, hstep n, hm]

/-- Claim C12, amended, in the example world at the first iteration. -/
theorem calibration_every_iteration_witness :
    (exampleWorld.openOk = true ∧ exampleWorld.ioctlOk = true) ∧
    ((run exampleWorld 1).trace = startupEvents ∧ (∀ reg, BusEvent.read reg ∉ startupEvents) ∧
      (run exampleWorld 1).mapping = none) ∧
    (run exampleWorld (0 + 1)).phase = Phase.polling ∧
    ((run exampleWorld (0 + 2)).trace = (run exampleWorld (0 + 1)).trace ++ loopBodyEvents ∧
      ∀ reg ∈ calibrationRegisters, BusEvent.read reg ∈ loopBodyEvents) ∧
    (run exampleWorld (0 + 2)).mapping =
      some ((readCalib (exampleWorld.sensor 0)).gradient,
        (readCalib (exampleWorld.sensor 0)).y_intercept) ∧
    ((run exampleWorld (0 + 2)).reports =
        (run exampleWorld (0 + 1)).reports ++
          [loopBody (exampleWorld.sensor 0) (exampleWorld.thermal 0)] ∧
      ∀ r : Report, loopBody (exampleWorld.sensor 0) (exampleWorld.thermal 0) = some r →
        r.H_rH = H_rH (readCalib (exampleWorld.sensor 0)).gradient
          (readCalib (exampleWorld.sensor 0)).y_intercept
          (assembleInt16 (toUInt8 (exampleWorld.sensor 0 HUMIDITY_OUT_H))
            (toUInt8 (exampleWorld.sensor 0 HUMIDITY_OUT_L)))) ∧
    (∀ m : Nat, readCalib (exampleWorld.sensor m) = readCalib (exampleWorld.sensor 0) →
      (run exampleWorld (m + 2)).mapping = (run exampleWorld (0 + 2)).mapping) :=
  ⟨⟨rfl, rfl⟩, calibration_every_iteration exampleWorld rfl rfl 0⟩


/-! ## Rounding to binary64 -/

/-- The halvings count is the binary logarithm, once the fuel reaches `n`. -/
theorem halvings_spec (fuel n : Nat) (hf : n ≤ fuel) (hn : 0 < n) :
    2 ^ halvings fuel n ≤ n ∧ n < 2 ^ (halvings fuel n + 1) := by
  induction fuel generalizing n with
  | zero => omega
  | succ fuel ih =>
    unfold halvings
    by_cases h2 : 2 ≤ n
    · rw [if_pos h2]
      have := ih (n / 2) (by omega) (by omega)
      rw [pow_succ, pow_succ]
      omega
    · rw [if_neg h2]
      have : n = 1 := by omega
      subst this
      simp

/-- The binary logarithm of a positive number, rounded down. -/
theorem floorLog2_spec (n : Nat) (hn : 0 < n) :
    2 ^ floorLog2 n ≤ n ∧ n < 2 ^ (floorLog2 n + 1) :=
  halvings_spec n n (Nat.le_refl n) hn

/-- The function `pow2` is the power of two. -/
theorem pow2_eq_zpow (e : Int) : pow2 e = (2 : ℚ) ^ e := by
  unfold pow2
  split
  · rename_i h
    obtain ⟨k, rfl⟩ := Int.eq_ofNat_of_zero_le h
    simp
  · rename_i h
    have h2 : 0 ≤ -e := by omega
    obtain ⟨k, hk⟩ := Int.eq_ofNat_of_zero_le h2
    have he : e = -(k : Int) := by omega
    subst he
    simp

/-- The nearest integer is within one half. -/
theorem roundHalfEven_spec (x : ℚ) : |x - (roundHalfEven x : ℚ)| ≤ 1 / 2 := by
  have hfl : Rat.floor x = ⌊x⌋ := by rw [Rat.floor_def', Rat.floor_def]
  have h1 : ((Rat.floor x : Int) : ℚ) ≤ x := by
    rw [hfl]
    exact Int.floor_le x
  have h2 : x < ((Rat.floor x : Int) : ℚ) + 1 := by
    rw [hfl]
    exact Int.lt_floor_add_one x
  unfold roundHalfEven
  simp only
  rw [abs_le]
  split
  · constructor <;> linarith
  · split
    · push_cast
      constructor <;> linarith
    · split
      · constructor <;> linarith
      · push_cast
        constructor <;> linarith

/-- The binary exponent brackets the fraction between two powers of two. -/
theorem binaryExponent_spec (a b : Nat) (ha : 0 < a) (hb : 0 < b) :
    pow2 (binaryExponent a b) ≤ (a : ℚ) / (b : ℚ) ∧
      (a : ℚ) / (b : ℚ) < pow2 (binaryExponent a b + 1) := by
  obtain ⟨ha1, ha2⟩ := floorLog2_spec a ha
  obtain ⟨hb1, hb2⟩ := floorLog2_spec b hb
  have hbq : (0 : ℚ) < (b : ℚ) := by exact_mod_cast hb
  have ha1q : (2 : ℚ) ^ floorLog2 a ≤ (a : ℚ) := by exact_mod_cast ha1
  have ha2q : (a : ℚ) < (2 : ℚ) ^ (floorLog2 a + 1) := by exact_mod_cast ha2
  have hb1q : (2 : ℚ) ^ floorLog2 b ≤ (b : ℚ) := by exact_mod_cast hb1
  have hb2q : (b : ℚ) < (2 : ℚ) ^ (floorLog2 b + 1) := by exact_mod_cast hb2
  have hpa : (0 : ℚ) < (2 : ℚ) ^ floorLog2 a := by positivity
  have hpb : (0 : ℚ) < (2 : ℚ) ^ floorLog2 b := by positivity
  have e0 : (2 : ℚ) ^ ((floorLog2 a : Int) - (floorLog2 b : Int)) =
      (2 : ℚ) ^ floorLog2 a / (2 : ℚ) ^ floorLog2 b := by
    rw [zpow_sub₀ (by norm_num : (2 : ℚ) ≠ 0), zpow_natCast, zpow_natCast]
  have e1 : (2 : ℚ) ^ ((floorLog2 a : Int) - (floorLog2 b : Int) + 1) =
      (2 : ℚ) ^ floorLog2 a / (2 : ℚ) ^ floorLog2 b * 2 := by
    rw [zpow_add₀ (by norm_num : (2 : ℚ) ≠ 0), e0, zpow_one]
  have em : (2 : ℚ) ^ ((floorLog2 a : Int) - (floorLog2 b : Int) - 1) =
      (2 : ℚ) ^ floorLog2 a / (2 : ℚ) ^ floorLog2 b / 2 := by
    rw [zpow_sub₀ (by norm_num : (2 : ℚ) ≠ 0), e0, zpow_one]
  have hup : (a : ℚ) / (b : ℚ) < (2 : ℚ) ^ floorLog2 a / (2 : ℚ) ^ floorLog2 b * 2 := by
    rw [div_lt_iff₀ hbq]
    have h3 : (2 : ℚ) ^ floorLog2 a / (2 : ℚ) ^ floorLog2 b * 2 * (b : ℚ) =
        (2 : ℚ) ^ (floorLog2 a + 1) * ((b : ℚ) / (2 : ℚ) ^ floorLog2 b) := by
      rw [pow_succ]
      field_simp
    rw [h3]
    have h4 : (1 : ℚ) ≤ (b : ℚ) / (2 : ℚ) ^ floorLog2 b := by
      rw [le_div_iff₀ hpb]
      linarith
    have h5 : (0 : ℚ) < (2 : ℚ) ^ (floorLog2 a + 1) := by positivity
    nlinarith
  have hlo : (2 : ℚ) ^ floorLog2 a / (2 : ℚ) ^ floorLog2 b / 2 ≤ (a : ℚ) / (b : ℚ) := by
    rw [le_div_iff₀ hbq]
    have h3 : (2 : ℚ) ^ floorLog2 a / (2 : ℚ) ^ floorLog2 b / 2 * (b : ℚ) =
        (2 : ℚ) ^ floorLog2 a * ((b : ℚ) / (2 : ℚ) ^ (floorLog2 b + 1)) := by
      rw [pow_succ]
      field_simp
    rw [h3]
    have h4 : (b : ℚ) / (2 : ℚ) ^ (floorLog2 b + 1) ≤ 1 := by
      rw [div_le_iff₀ (by positivity)]
      linarith
    nlinarith
  unfold binaryExponent
  simp only
  split
  · rename_i h
    refine ⟨h, ?_⟩
    rw [pow2_eq_zpow, e1]
    exact hup
  · rename_i h
    rw [pow2_eq_zpow] at h
    rw [pow2_eq_zpow, pow2_eq_zpow, em, sub_add_cancel]
    exact ⟨hlo, lt_of_not_le h⟩

/-- The absolute value of a rational number as the quotient the rounding uses. -/
theorem natAbs_num_div_den (q : ℚ) : ((q.num.natAbs : Nat) : ℚ) / (q.den : ℚ) = |q| := by
  have hd : (0 : ℚ) < (q.den : ℚ) := by exact_mod_cast q.den_pos
  have hq : q = (q.num : ℚ) / (q.den : ℚ) := (Rat.num_div_den q).symm
  have hn : ((q.num.natAbs : Nat) : ℚ) = |(q.num : ℚ)| := by
    rw [Nat.cast_natAbs, Int.cast_abs]
  conv_rhs => rw [hq]
  rw [abs_div, abs_of_pos hd, hn]

/-- A finite result of the rounding is the nearest multiple of the quantum. -/
theorem round64_fin (q r : ℚ) (hq : q ≠ 0) (h : Dbl.round64 q = Dbl.fin r) :
    r = (roundHalfEven (q / pow2 (max (binaryExponent q.num.natAbs q.den) (-1022) - 52)) : ℚ) *
      pow2 (max (binaryExponent q.num.natAbs q.den) (-1022) - 52) := by
  unfold Dbl.round64 at h
  rw [if_neg hq] at h
  simp only at h
  split at h
  · exact Dbl.noConfusion h
  · split at h
    · exact Dbl.noConfusion h
    · exact (Dbl.fin.inj h).symm

/-- The rounding error is at most half the quantum. -/
theorem round64_error_quantum (q r : ℚ) (hq : q ≠ 0) (h : Dbl.round64 q = Dbl.fin r) :
    |r - q| ≤ pow2 (max (binaryExponent q.num.natAbs q.den) (-1022) - 52) / 2 := by
  have hr := round64_fin q r hq h
  have hQ : (0 : ℚ) < pow2 (max (binaryExponent q.num.natAbs q.den) (-1022) - 52) := by
    rw [pow2_eq_zpow]
    positivity
  have hspec := roundHalfEven_spec
    (q / pow2 (max (binaryExponent q.num.natAbs q.den) (-1022) - 52))
  have e : r - q = -((q / pow2 (max (binaryExponent q.num.natAbs q.den) (-1022) - 52) -
      (roundHalfEven (q / pow2 (max (binaryExponent q.num.natAbs q.den) (-1022) - 52)) : ℚ)) *
        pow2 (max (binaryExponent q.num.natAbs q.den) (-1022) - 52)) := by
    rw [hr]
    field_simp
    ring
  rw [e, abs_neg, abs_mul, abs_of_pos hQ]
  calc |q / pow2 (max (binaryExponent q.num.natAbs q.den) (-1022) - 52) -
        (roundHalfEven (q / pow2 (max (binaryExponent q.num.natAbs q.den) (-1022) - 52)) : ℚ)| *
        pow2 (max (binaryExponent q.num.natAbs q.den) (-1022) - 52)
      ≤ 1 / 2 * pow2 (max (binaryExponent q.num.natAbs q.den) (-1022) - 52) :=
        mul_le_mul_of_nonneg_right hspec (le_of_lt hQ)
    _ = pow2 (max (binaryExponent q.num.natAbs q.den) (-1022) - 52) / 2 := by ring

/-- In the normal range the rounding has a relative error of at most `2 ^ (-53)`. -/
theorem round64_error (q r : ℚ) (hn : pow2 (-1022) ≤ |q|) (h : Dbl.round64 q = Dbl.fin r) :
    |r - q| ≤ |q| / 2 ^ 53 := by
  have hpos : (0 : ℚ) < pow2 (-1022) := by
    rw [pow2_eq_zpow]
    positivity
  have hq : q ≠ 0 := by
    intro h0
    rw [h0, abs_zero] at hn
    linarith
  have hnum : 0 < q.num.natAbs := Int.natAbs_pos.2 (Rat.num_ne_zero.2 hq)
  obtain ⟨hlo, hhi⟩ := binaryExponent_spec q.num.natAbs q.den hnum q.den_pos
  rw [natAbs_num_div_den] at hlo hhi
  have he : -1022 ≤ binaryExponent q.num.natAbs q.den := by
    have h1 : pow2 (-1022) < pow2 (binaryExponent q.num.natAbs q.den + 1) :=
      lt_of_le_of_lt hn hhi
    rw [pow2_eq_zpow, pow2_eq_zpow, zpow_lt_zpow_iff_right₀ (by norm_num : (1 : ℚ) < 2)] at h1
    omega
  have hq1 := round64_error_quantum q r hq h
  rw [max_eq_left he] at hq1
  have e53 : pow2 (binaryExponent q.num.natAbs q.den - 52) / 2 =
      pow2 (binaryExponent q.num.natAbs q.den) / 2 ^ 53 := by
    rw [pow2_eq_zpow, pow2_eq_zpow, zpow_sub₀ (by norm_num : (2 : ℚ) ≠ 0)]
    norm_num
    ring
  rw [e53] at hq1
  calc |r - q| ≤ pow2 (binaryExponent q.num.natAbs q.den) / 2 ^ 53 := hq1
    _ ≤ |q| / 2 ^ 53 := by
      apply div_le_div_of_nonneg_right hlo
      positivity

/-- The rounding on known values: 0.1, -1/3 and 5.466 go to their nearest
`double`s; `2 ^ 1024` and the half-way point below it overflow, a value just
under that goes to the largest `double`; half the smallest subnormal goes to
0 and three halves of it to twice the smallest subnormal. -/
theorem round64_known_values :
    Dbl.round64 (1 / 10) = Dbl.fin (3602879701896397 / 36028797018963968) ∧
    Dbl.round64 (-1 / 3) = Dbl.fin (-6004799503160661 / 18014398509481984) ∧
    Dbl.round64 (5466 / 1000) = Dbl.fin (6154168890801783 / 1125899906842624) ∧
    Dbl.round64 (pow2 1024) = Dbl.pinf ∧
    Dbl.round64 (pow2 1024 - pow2 970) = Dbl.pinf ∧
    Dbl.round64 (pow2 1024 - pow2 970 - pow2 900) = Dbl.fin (pow2 1024 - pow2 971) ∧
    Dbl.round64 (-pow2 1024) = Dbl.ninf ∧
    Dbl.round64 (pow2 (-1075)) = Dbl.fin 0 ∧
    Dbl.round64 (3 * pow2 (-1075)) = Dbl.fin (pow2 (-1073)) := by
  decide!

end HumidityTemp
